import Mathlib

/-!
# Verification of the lean_scout buffered shard store and process supervisor

Shallow embedding of `src/lean_scout/writer.py` (`ShardedParquetWriter`),
`src/lean_scout/utils.py` (`stream_json_lines`) and
`src/lean_scout/orchestrator.py` (`Orchestrator`), together with proofs of
the specified properties.

Machine integers are modelled as `Nat` with explicit reduction `% 2^64`
where the Python code relies on fixed-width arithmetic (inside blake2b);
Python dictionaries are modelled as insertion-ordered association lists.
-/

/-! ## JSON values

A record parsed from a worker's output line is a Python dict produced by
`json.loads`; its values are the JSON values.  Float values are outside the
model (no claim depends on float formatting). -/

inductive Value where
  | null
  | bool (b : Bool)
  | int (n : Int)
  | str (s : String)
  | list (items : List Value)
  | obj (entries : List (String × Value))
deriving Repr

/-- UTF-8 encoding of one character, as `str.encode("utf-8")` produces. -/
def utf8Bytes (c : Char) : List Nat :=
  let n := c.toNat
  if n < 0x80 then [n]
  else if n < 0x800 then
    [0xC0 ||| (n >>> 6), 0x80 ||| (n &&& 0x3F)]
  else if n < 0x10000 then
    [0xE0 ||| (n >>> 12), 0x80 ||| ((n >>> 6) &&& 0x3F), 0x80 ||| (n &&& 0x3F)]
  else
    [0xF0 ||| (n >>> 18), 0x80 ||| ((n >>> 12) &&& 0x3F),
     0x80 ||| ((n >>> 6) &&& 0x3F), 0x80 ||| (n &&& 0x3F)]

/-- `s.encode("utf-8")` as a byte list. -/
def encodeUtf8 (s : String) : List Nat :=
  (s.data.map utf8Bytes).flatten

/-- Lower-case hexadecimal digit. -/
def hexDigit (n : Nat) : Char :=
  if n < 10 then Char.ofNat (48 + n) else Char.ofNat (87 + n)

/-- Four lower-case hex digits, as in a `\u....` escape. -/
def hex4 (n : Nat) : List Char :=
  [hexDigit ((n >>> 12) &&& 15), hexDigit ((n >>> 8) &&& 15),
   hexDigit ((n >>> 4) &&& 15), hexDigit (n &&& 15)]

/-- Escape of one character inside a JSON string literal, following
`json.dumps` with its default `ensure_ascii=True`. -/
def escapeChar (c : Char) : List Char :=
  let n := c.toNat
  if n = 34 then ['\\', '"']
  else if n = 92 then ['\\', '\\']
  else if n = 10 then ['\\', 'n']
  else if n = 13 then ['\\', 'r']
  else if n = 9 then ['\\', 't']
  else if n = 8 then ['\\', 'b']
  else if n = 12 then ['\\', 'f']
  else if 0x20 ≤ n ∧ n ≤ 0x7E then [c]
  else if n < 0x10000 then '\\' :: 'u' :: hex4 n
  else
    let m := n - 0x10000
    ('\\' :: 'u' :: hex4 (0xD800 + (m >>> 10))) ++
      ('\\' :: 'u' :: hex4 (0xDC00 + (m &&& 0x3FF)))

/-- A JSON string literal: quotes around the escaped characters. -/
def quoteStr (s : String) : String :=
  ⟨'"' :: (s.data.map escapeChar).flatten ++ ['"']⟩

/-- `sort_keys=True`: object entries sorted by key (Python compares
strings by code points, which is `String`'s order). -/
def sortEntries (kvs : List (String × Value)) : List (String × Value) :=
  kvs.mergeSort (fun p q => p.1 ≤ q.1)

/-- `json.dumps(v, sort_keys=True)` with the default separators
`", "` and `": "` and `ensure_ascii=True`. -/
def dumps : Value → String
  | .null => "null"
  | .bool true => "true"
  | .bool false => "false"
  | .int n => toString n
  | .str s => quoteStr s
  | .list items =>
      "[" ++ String.intercalate ", " (items.attach.map (fun x => dumps x.1)) ++ "]"
  | .obj entries =>
      "\x7b" ++
        String.intercalate ", "
          ((sortEntries entries).attach.map
            (fun p => quoteStr p.1.1 ++ ": " ++ dumps p.1.2)) ++
        "\x7d"
decreasing_by
  · have := List.sizeOf_lt_of_mem x.2
    simp only [Value.list.sizeOf_spec]
    omega
  · have hmem : p.1 ∈ entries :=
      (List.mergeSort_perm entries (fun p q => p.1 ≤ q.1)).mem_iff.mp p.2
    have h1 : sizeOf p.1 < sizeOf entries := List.sizeOf_lt_of_mem hmem
    have h2 : sizeOf p.1.2 < sizeOf p.1 := by
      cases p.1 with
      | mk a b => simp
    simp only [Value.obj.sizeOf_spec]
    omega

/-! ## blake2b

Model of `hashlib.blake2b(data, digest_size=8)` (RFC 7693, unkeyed),
on 64-bit words represented as `Nat` reduced `% 2^64`. -/

/-- 64-bit addition. -/
def add64 (a b : Nat) : Nat := (a + b) % 2 ^ 64

/-- 64-bit right rotation. -/
def rotr64 (x n : Nat) : Nat := ((x >>> n) ||| (x <<< (64 - n))) % 2 ^ 64

/-- The blake2b initialization vector. -/
def blakeIV : List Nat :=
  [0x6a09e667f3bcc908, 0xbb67ae8584caa73b, 0x3c6ef372fe94f82b, 0xa54ff53a5f1d36f1,
   0x510e527fade682d1, 0x9b05688c2b3e6c1f, 0x1f83d9abfb41bd6b, 0x5be0cd19137e2179]

/-- The blake2 message schedule permutations. -/
def blakeSigma : List (List Nat) :=
  [[0, 1, 2, 3, 4, 5, 6, 7, 8, 9, 10, 11, 12, 13, 14, 15],
   [14, 10, 4, 8, 9, 15, 13, 6, 1, 12, 0, 2, 11, 7, 5, 3],
   [11, 8, 12, 0, 5, 2, 15, 13, 10, 14, 3, 6, 7, 1, 9, 4],
   [7, 9, 3, 1, 13, 12, 11, 14, 2, 6, 5, 10, 4, 0, 15, 8],
   [9, 0, 5, 7, 2, 4, 10, 15, 14, 1, 11, 12, 6, 8, 3, 13],
   [2, 12, 6, 10, 0, 11, 8, 3, 4, 13, 7, 5, 15, 14, 1, 9],
   [12, 5, 1, 15, 14, 13, 4, 10, 0, 7, 6, 3, 9, 2, 8, 11],
   [13, 11, 7, 14, 12, 1, 3, 9, 5, 0, 15, 4, 8, 6, 2, 10],
   [6, 15, 14, 9, 11, 3, 0, 8, 12, 2, 13, 7, 1, 4, 10, 5],
   [10, 2, 8, 4, 7, 6, 1, 5, 15, 11, 9, 14, 3, 12, 13, 0]]

/-- The blake2b mixing function G on the 16-word work vector. -/
def gmix (v : List Nat) (a b c d x y : Nat) : List Nat :=
  let va := add64 (add64 (v.getD a 0) (v.getD b 0)) x
  let vd := rotr64 ((v.getD d 0) ^^^ va) 32
  let vc := add64 (v.getD c 0) vd
  let vb := rotr64 ((v.getD b 0) ^^^ vc) 24
  let va2 := add64 (add64 va vb) y
  let vd2 := rotr64 (vd ^^^ va2) 16
  let vc2 := add64 vc vd2
  let vb2 := rotr64 (vb ^^^ vc2) 63
  (((v.set a va2).set b vb2).set c vc2).set d vd2

/-- One blake2b round: eight G applications under the round's schedule. -/
def blakeRound (m : List Nat) (v : List Nat) (r : Nat) : List Nat :=
  let s := blakeSigma.getD (r % 10) []
  let mi := fun i => m.getD (s.getD i 0) 0
  let v := gmix v 0 4 8 12 (mi 0) (mi 1)
  let v := gmix v 1 5 9 13 (mi 2) (mi 3)
  let v := gmix v 2 6 10 14 (mi 4) (mi 5)
  let v := gmix v 3 7 11 15 (mi 6) (mi 7)
  let v := gmix v 0 5 10 15 (mi 8) (mi 9)
  let v := gmix v 1 6 11 12 (mi 10) (mi 11)
  let v := gmix v 2 7 8 13 (mi 12) (mi 13)
  gmix v 3 4 9 14 (mi 14) (mi 15)

/-- Little-endian interpretation of a byte list. -/
def leNat (bs : List Nat) : Nat := bs.foldr (fun b acc => b + 256 * acc) 0

/-- The sixteen little-endian 64-bit words of one 128-byte block. -/
def blockWords (blk : List Nat) : List Nat :=
  (List.range 16).map (fun i => leNat ((blk.drop (8 * i)).take 8))

/-- The blake2b compression function F. -/
def blakeCompress (h : List Nat) (m : List Nat) (t : Nat) (f : Bool) : List Nat :=
  let v := h ++ blakeIV
  let v := v.set 12 ((v.getD 12 0) ^^^ (t % 2 ^ 64))
  let v := v.set 13 ((v.getD 13 0) ^^^ ((t >>> 64) % 2 ^ 64))
  let v := if f then v.set 14 ((v.getD 14 0) ^^^ (2 ^ 64 - 1)) else v
  let v := (List.range 12).foldl (blakeRound m) v
  (List.range 8).map (fun i => (h.getD i 0) ^^^ (v.getD i 0) ^^^ (v.getD (i + 8) 0))

/-- Split a message into 128-byte blocks; an empty or short message is a
single (to-be-padded) block, as blake2b prescribes. -/
def blakeChunks (l : List Nat) : List (List Nat) :=
  if l.length ≤ 128 then [l] else l.take 128 :: blakeChunks (l.drop 128)
termination_by l.length
decreasing_by simp; omega

/-- Zero-pad a final block to 128 bytes. -/
def padTo128 (blk : List Nat) : List Nat := blk ++ List.replicate (128 - blk.length) 0

/-- Fold the compression function over the message blocks, threading the
byte counter `t`; the last block is compressed with the final flag. -/
def blakeLoop (h : List Nat) (blks : List (List Nat)) (done : Nat) : List Nat :=
  match blks with
  | [] => h
  | [b] => blakeCompress h (blockWords (padTo128 b)) (done + b.length) true
  | b :: rest => blakeLoop (blakeCompress h (blockWords b) (done + 128) false) rest (done + 128)

/-- Little-endian byte serialization of a word, `n` bytes. -/
def leBytes (n x : Nat) : List Nat := (List.range n).map (fun i => (x >>> (8 * i)) % 256)

/-- `hashlib.blake2b(msg, digest_size=8).digest()`: parameter block with
digest length 8, no key, fanout/depth 1. -/
def blake2b8 (msg : List Nat) : List Nat :=
  let h0 := blakeIV.set 0 ((blakeIV.getD 0 0) ^^^ 0x01010008)
  let h := blakeLoop h0 (blakeChunks msg) 0
  leBytes 8 (h.getD 0 0)

/-- `int.from_bytes(bs, "big")`. -/
def beNat (bs : List Nat) : Nat := bs.foldl (fun acc b => acc * 256 + b) 0

/-- The text `_compute_shard` hashes: the string itself for a string key,
otherwise the canonical serialization `json.dumps(value, sort_keys=True)`. -/
def shard_hash_text (value : Value) : String :=
  match value with
  | .str s => s
  | v => dumps v

/-- `ShardedParquetWriter._compute_shard`: hash a key value to a shard.
The 8-byte blake2b digest of the UTF-8 encoded text is read as a
big-endian unsigned 64-bit integer and reduced modulo `num_shards`. -/
def compute_shard (value : Value) (num_shards : Nat) : Nat :=
  beNat (blake2b8 (encodeUtf8 (shard_hash_text value))) % num_shards

/-! ## Python dictionaries

`self.writers`, `self.buffers` and `self.counts` are Python dicts keyed by
the shard index; a dict is modelled as an insertion-ordered association
list with unique keys.  `dSet` updates an existing key in place and
appends a new one, exactly as Python assignment does. -/

/-- Dict lookup `m.get(k)` / `m[k]`. -/
def dGet {α : Type} (m : List (Nat × α)) (k : Nat) : Option α :=
  (m.find? (fun p => p.1 == k)).map (·.2)

/-- Dict assignment `m[k] = v`. -/
def dSet {α : Type} (m : List (Nat × α)) (k : Nat) (v : α) : List (Nat × α) :=
  if m.any (fun p => p.1 == k) then
    m.map (fun p => if p.1 == k then (k, v) else p)
  else
    m ++ [(k, v)]

/-- A record: the Python dict produced by `json.loads` on one line. -/
abbrev Record := List (String × Value)

/-- `record.get(key)`. -/
def recGet (r : Record) (k : String) : Option Value :=
  (r.find? (fun p => p.1 == k)).map (·.2)

/-- Construction arguments of `ShardedParquetWriter` (the pyarrow schema
and the compression codec play no role in the modelled behavior). -/
structure WriterCfg where
  out_dir : String
  num_shards : Nat
  batch_rows : Nat
  shard_key : String

/-- The statistics dict returned by `close()`. -/
structure RunStats where
  total_rows : Nat
  num_shards : Nat
  out_dir : String
deriving DecidableEq, Repr

/-- The mutable state of a `ShardedParquetWriter`.

`writers` maps a shard to the rows already written to its parquet file
(the `pq.ParquetWriter` sink), `buffers` and `counts` are the dicts of the
same names.  Four observation fields record the I/O and call history:
`flushLog` logs `table.num_rows` of every `write_table` call, `added`
logs every record passed to `add_record`, and `closeCount`/`closedStats`
record the `close()` calls and the statistics the last one returned. -/
structure WriterState where
  writers : List (Nat × List Record)
  buffers : List (Nat × List Record)
  counts : List (Nat × Nat)
  flushLog : List Nat
  added : List Record
  closeCount : Nat
  closedStats : Option RunStats

/-- A writer as constructed: empty dicts, nothing written. -/
def initWriter : WriterState :=
  { writers := [], buffers := [], counts := [], flushLog := [], added := [],
    closeCount := 0, closedStats := none }

/-- `ShardedParquetWriter._flush_shard_unsafe` (called with the lock
held; named `flush_shard_inner` here): no-op on a missing or
empty buffer; otherwise open the shard's writer lazily (with a zero row
count), write the buffered records as one table, bump the count by
`table.num_rows`, and clear the buffer. -/
def flush_shard_inner (st : WriterState) (shard : Nat) : WriterState :=
  match dGet st.buffers shard with
  | none => st
  | some [] => st
  | some records =>
    let st1 :=
      if (dGet st.writers shard).isSome then st
      else { st with writers := dSet st.writers shard [], counts := dSet st.counts shard 0 }
    { st1 with
      writers := dSet st1.writers shard ((dGet st1.writers shard).getD [] ++ records),
      counts := dSet st1.counts shard ((dGet st1.counts shard).getD 0 + records.length),
      buffers := dSet st1.buffers shard [],
      flushLog := st1.flushLog ++ [records.length] }

/-- `ShardedParquetWriter.add_record`: route by the hashed shard key
(`record.get` yields `None`, i.e. `Value.null`, when the key is absent),
append to the shard's buffer, and flush that shard while still holding
the lock once the buffer has reached `batch_rows`. -/
def add_record (cfg : WriterCfg) (st : WriterState) (record : Record) : WriterState :=
  let shard_key_value := (recGet record cfg.shard_key).getD Value.null
  let shard := compute_shard shard_key_value cfg.num_shards
  let buffer := (dGet st.buffers shard).getD [] ++ [record]
  let st' := { st with buffers := dSet st.buffers shard buffer, added := st.added ++ [record] }
  if buffer.length ≥ cfg.batch_rows then flush_shard_inner st' shard else st'

/-- `ShardedParquetWriter.flush_shard` (takes the lock, then flushes). -/
def flush_shard (st : WriterState) (shard : Nat) : WriterState :=
  flush_shard_inner st shard

/-- `ShardedParquetWriter.flush_all`: flush every shard in
`list(self.buffers.keys())`. -/
def flush_all (st : WriterState) : WriterState :=
  (st.buffers.map (·.1)).foldl flush_shard_inner st

/-- `ShardedParquetWriter.close`: flush all remaining buffers, close the
writers, and return the statistics dict. -/
def closeWriter (cfg : WriterCfg) (st : WriterState) : RunStats × WriterState :=
  let st1 := (st.buffers.map (·.1)).foldl flush_shard_inner st
  let stats : RunStats :=
    { total_rows := (st1.counts.map (·.2)).sum
      num_shards := st1.writers.length
      out_dir := cfg.out_dir }
  (stats, { st1 with closeCount := st1.closeCount + 1, closedStats := some stats })

/-! ## utils.stream_json_lines

`json.loads` is external library code; it is abstracted as a function
`parse : String → Option Record`, `none` standing for a
`json.JSONDecodeError`.  The streaming loop itself is translated: strip
the line, skip it when blank, yield the parse result, and on a decode
error log a warning (a no-op here) and skip the line. -/

/-- Python's `str.isspace` on the characters `str.strip()` removes
(the ASCII whitespace characters; records are ASCII JSON lines). -/
def pyIsSpace (c : Char) : Bool :=
  c == ' ' || c == '\t' || c == '\n' || c == '\r' || c == '\x0b' || c == '\x0c'

/-- `line.strip()`: drop leading and trailing whitespace. -/
def pyStrip (s : String) : String :=
  ⟨((s.data.dropWhile pyIsSpace).reverse.dropWhile pyIsSpace).reverse⟩

def stream_json_lines (parse : String → Option Record) : List String → List Record
  | [] => []
  | line :: rest =>
    let l := pyStrip line
    if l = "" then stream_json_lines parse rest
    else
      match parse l with
      | some record => record :: stream_json_lines parse rest
      | none => stream_json_lines parse rest

/-! ## Orchestrator

Model of `orchestrator.py`.  A spawned worker subprocess is external; its
observable behavior is the lines it writes to stdout and its exit code.
`workers none` is the single subprocess of the imports target,
`workers (some f)` the subprocess spawned for file `f`.  Threads of the
multi-file pool interleave, serialized here by the `as_completed`
completion order `order`; the Store is safe for this serialization
because every writer operation runs under the writer's single lock. -/

/-- Observable behavior of one spawned `lake exe lean_scout` worker. -/
structure WorkerBehavior where
  lines : List String
  exitCode : Int

/-- The job target: `--imports` or `--read` (mutually exclusive,
validated in `Orchestrator.__init__`). -/
inductive JobTarget where
  | imports (mods : List String)
  | readFiles (fs : List String)

/-- `Orchestrator._process_subprocess_output`: stream the subprocess's
stdout as JSON lines and feed every parsed record to the shared writer. -/
def process_subprocess_output (cfg : WriterCfg) (parse : String → Option Record)
    (st : WriterState) (lines : List String) : WriterState :=
  (stream_json_lines parse lines).foldl (add_record cfg) st

/-- The message of the `RuntimeError` raised for one failed subprocess
of a `--read` target. -/
def unitErrMsg (code : Int) (f : String) : String :=
  "Lean subprocess failed with exit code " ++ toString code ++ "\nFile: " ++ f

/-- A fatal error escaping `Orchestrator.run`. -/
inductive RunError where
  | workerExit (code : Int) (file : Option String)
  | aggregate (errors : List String)
deriving DecidableEq, Repr

/-- `Orchestrator._run_multiple_files`, serialized in completion order:
each unit streams its worker's output into the shared writer and records
`f"{file_path}: {exc}"` on a nonzero exit instead of aborting its
siblings. -/
def run_multiple_files (cfg : WriterCfg) (parse : String → Option Record)
    (workers : Option String → WorkerBehavior) (order : List String)
    (st : WriterState) : WriterState × List String :=
  order.foldl
    (fun acc f =>
      let w := workers (some f)
      let st' := process_subprocess_output cfg parse acc.1 w.lines
      if w.exitCode ≠ 0 then (st', acc.2 ++ [f ++ ": " ++ unitErrMsg w.exitCode f])
      else (st', acc.2))
    (st, [])

/-- `Orchestrator.run`: imports and single-file targets run one worker
and fail on a nonzero exit; a multi-file target delegates to
`run_multiple_files` and raises one aggregate `RuntimeError` if any unit
failed.  Only the successful fall-through reaches `self.writer.close()`.
(`_build_lean_scout` is assumed to succeed; a build failure raises even
earlier, likewise without closing the writer.) -/
def orchestratorRun (cfg : WriterCfg) (parse : String → Option Record)
    (workers : Option String → WorkerBehavior) (target : JobTarget)
    (order : List String) : Except RunError RunStats × WriterState :=
  match target with
  | .imports _ =>
    let w := workers none
    let st := process_subprocess_output cfg parse initWriter w.lines
    if w.exitCode ≠ 0 then (.error (.workerExit w.exitCode none), st)
    else (.ok (closeWriter cfg st).1, (closeWriter cfg st).2)
  | .readFiles [f] =>
    let w := workers (some f)
    let st := process_subprocess_output cfg parse initWriter w.lines
    if w.exitCode ≠ 0 then (.error (.workerExit w.exitCode (some f)), st)
    else (.ok (closeWriter cfg st).1, (closeWriter cfg st).2)
  | .readFiles _ =>
    let st := (run_multiple_files cfg parse workers order initWriter).1
    let errors := (run_multiple_files cfg parse workers order initWriter).2
    if errors ≠ [] then (.error (.aggregate errors), st)
    else (.ok (closeWriter cfg st).1, (closeWriter cfg st).2)

/-- `cli.main` around `orchestrator.run()` in parquet mode: on success the
output directory holds the writer's sinks; on any exception the partially
created output directory is deleted (`shutil.rmtree(base_path)`) and the
process exits 1, leaving no final output. -/
def cliFinalOutput (cfg : WriterCfg) (parse : String → Option Record)
    (workers : Option String → WorkerBehavior) (target : JobTarget)
    (order : List String) : Option WriterState :=
  match orchestratorRun cfg parse workers target order with
  | (.ok _, st) => some st
  | (.error _, _) => none

/-! ## Shutdown flag vs. spawn (cleanup race)

`Orchestrator.cleanup` first sets `self._shutdown`; a pool thread running
`_process_file` reads the flag and, when it is clear, spawns its worker —
two separate steps with no lock around them.  The interleaving of these
steps is modelled as a transition system: one event per Python statement
that touches the shared flag or spawns. -/

inductive UnitStatus where
  | notStarted
  | passedCheck
  | spawned
  | failed
deriving DecidableEq, Repr

/-- Shared state: the `_shutdown` flag and each pool unit's progress
through `_process_file`. -/
structure SupervisorState where
  shutdown : Bool
  units : List UnitStatus
deriving DecidableEq, Repr

inductive SupEvent where
  | setFlag
  | check (u : Nat)
  | spawn (u : Nat)
deriving DecidableEq, Repr

/-- One interleaved step.  `setFlag` is `cleanup`'s `self._shutdown =
True`; `check u` is unit `u` evaluating `if self._shutdown: raise`;
`spawn u` is its subsequent `self._spawn_lean_subprocess(file_path)`,
which the code runs without re-reading the flag. -/
def supStep (st : SupervisorState) : SupEvent → SupervisorState
  | .setFlag => { st with shutdown := true }
  | .check u =>
    if st.units.getD u .failed = .notStarted then
      { st with units := st.units.set u (if st.shutdown then .failed else .passedCheck) }
    else st
  | .spawn u =>
    if st.units.getD u .failed = .passedCheck then
      { st with units := st.units.set u .spawned }
    else st

def supExec (st : SupervisorState) (events : List SupEvent) : SupervisorState :=
  events.foldl supStep st

/-! ## Association-list (dict) lemmas -/

/-- Replacing entries of an absent key changes nothing. -/
theorem map_keyReplace_of_not_any {α : Type} {m : List (Nat × α)} {k : Nat} {v : α}
    (h : m.any (fun p => p.1 == k) = false) :
    m.map (fun p => if p.1 == k then (k, v) else p) = m := by
  induction m with
  | nil => rfl
  | cons p rest ih =>
    simp only [List.any_cons, Bool.or_eq_false_iff] at h
    rw [List.map_cons, if_neg (by simp [h.1]), ih h.2]

theorem dGet_any {α : Type} {m : List (Nat × α)} {k : Nat} {w : α}
    (h : dGet m k = some w) : m.any (fun p => p.1 == k) = true := by
  unfold dGet at h
  rcases Option.map_eq_some'.mp h with ⟨q, hq, hw⟩
  have h1 : q ∈ m := List.mem_of_find?_eq_some hq
  have h2 := List.find?_some hq
  exact List.any_eq_true.mpr ⟨q, h1, h2⟩

theorem dGet_none_any {α : Type} {m : List (Nat × α)} {k : Nat}
    (h : dGet m k = none) : m.any (fun p => p.1 == k) = false := by
  rw [Bool.eq_false_iff]
  intro hany
  rcases List.any_eq_true.mp hany with ⟨q, hq, hqk⟩
  unfold dGet at h
  have h' := Option.map_eq_none'.mp h
  rw [List.find?_eq_none] at h'
  exact h' q hq hqk

theorem dGet_dSet_self {α : Type} (m : List (Nat × α)) (k : Nat) (v : α) :
    dGet (dSet m k v) k = some v := by
  unfold dSet
  split
  case isTrue h =>
    induction m with
    | nil => simp at h
    | cons p rest ih =>
      by_cases hp : p.1 = k
      · unfold dGet
        rw [List.map_cons, if_pos (by simp [hp]), List.find?_cons_of_pos _ (by simp)]
        rfl
      · have hp' : (p.1 == k) = false := by simpa using hp
        simp only [List.any_cons, hp', Bool.false_or] at h
        have := ih h
        unfold dGet at this ⊢
        rw [List.map_cons, if_neg (by simp [hp']), List.find?_cons_of_neg _ (by simp [hp'])]
        exact this
  case isFalse h =>
    have h' : m.any (fun p => p.1 == k) = false := Bool.eq_false_iff.mpr h
    unfold dGet
    rw [List.find?_append]
    have hnone : m.find? (fun p => p.1 == k) = none := by
      rw [List.find?_eq_none]
      intro q hq hqk
      have : m.any (fun p => p.1 == k) = true := List.any_eq_true.mpr ⟨q, hq, hqk⟩
      rw [h'] at this
      exact Bool.false_ne_true this
    rw [hnone, List.find?_cons_of_pos _ (by simp)]
    rfl

theorem dGet_dSet_ne {α : Type} (m : List (Nat × α)) (k k' : Nat) (v : α)
    (hne : k' ≠ k) : dGet (dSet m k v) k' = dGet m k' := by
  unfold dSet
  split
  case isTrue h =>
    unfold dGet
    congr 1
    clear h
    induction m with
    | nil => rfl
    | cons p rest ih =>
      by_cases hp : p.1 = k
      · rw [List.map_cons, if_pos (by simp [hp]),
            List.find?_cons_of_neg _ (by simpa using Ne.symm hne),
            List.find?_cons_of_neg _ (by simpa [hp] using Ne.symm hne)]
        exact ih
      · rw [List.map_cons, if_neg (by simpa using hp)]
        by_cases hpk' : p.1 = k'
        · rw [List.find?_cons_of_pos _ (by simpa using hpk'),
              List.find?_cons_of_pos _ (by simpa using hpk')]
        · rw [List.find?_cons_of_neg _ (by simpa using hpk'),
              List.find?_cons_of_neg _ (by simpa using hpk')]
          exact ih
  case isFalse h =>
    unfold dGet
    rw [List.find?_append,
        List.find?_cons_of_neg _ (by simpa using Ne.symm hne)]
    cases m.find? (fun p => p.1 == k') <;> rfl

theorem keys_dSet_any {α : Type} {m : List (Nat × α)} {k : Nat} (v : α)
    (h : m.any (fun p => p.1 == k) = true) :
    (dSet m k v).map Prod.fst = m.map Prod.fst := by
  unfold dSet
  rw [if_pos h, List.map_map]
  apply List.map_congr_left
  intro p _
  by_cases hp : p.1 = k
  · simp [hp]
  · simp [hp]

theorem keys_dSet_not_any {α : Type} {m : List (Nat × α)} {k : Nat} (v : α)
    (h : m.any (fun p => p.1 == k) = false) :
    (dSet m k v).map Prod.fst = m.map Prod.fst ++ [k] := by
  unfold dSet
  rw [if_neg (by simp [h])]
  simp

theorem nodup_keys_dSet {α : Type} {m : List (Nat × α)} {k : Nat} (v : α)
    (h : (m.map Prod.fst).Nodup) : ((dSet m k v).map Prod.fst).Nodup := by
  by_cases hany : m.any (fun p => p.1 == k) = true
  · rw [keys_dSet_any v hany]; exact h
  · rw [keys_dSet_not_any v (Bool.eq_false_iff.mpr hany)]
    rw [List.nodup_append]
    refine ⟨h, List.nodup_singleton k, ?_⟩
    intro a ha hk
    rcases List.mem_map.mp ha with ⟨p, hp, hpa⟩
    rw [List.mem_singleton] at hk
    have : m.any (fun p => p.1 == k) = true :=
      List.any_eq_true.mpr ⟨p, hp, by simp [hpa, hk]⟩
    exact hany this

theorem sum_dSet_present {α : Type} (g : α → Nat) {m : List (Nat × α)} {k : Nat}
    {w : α} (v : α) (hnd : (m.map Prod.fst).Nodup) (hget : dGet m k = some w) :
    ((dSet m k v).map (fun p => g p.2)).sum + g w
      = (m.map (fun p => g p.2)).sum + g v := by
  unfold dSet
  rw [if_pos (dGet_any hget)]
  induction m with
  | nil => simp [dGet] at hget
  | cons p rest ih =>
    rw [List.map_cons, List.nodup_cons] at hnd
    by_cases hp : p.1 = k
    · have hrest : rest.any (fun q => q.1 == k) = false := by
        rw [Bool.eq_false_iff]
        intro hany
        rcases List.any_eq_true.mp hany with ⟨q, hq, hqk⟩
        exact hnd.1 (List.mem_map.mpr ⟨q, hq, by subst hp; simpa using hqk⟩)
      have hw : w = p.2 := by
        unfold dGet at hget
        rw [List.find?_cons_of_pos _ (by simp [hp])] at hget
        simpa using hget.symm
      rw [List.map_cons, if_pos (by simp [hp]),
          map_keyReplace_of_not_any hrest]
      subst hw
      simp [Nat.add_comm, Nat.add_left_comm]
    · have hget' : dGet rest k = some w := by
        unfold dGet at hget ⊢
        rwa [List.find?_cons_of_neg _ (by simpa using hp)] at hget
      have hp' : (p.1 == k) = false := by simpa using hp
      have hih := ih hnd.2 hget'
      simp only [List.map_cons, hp', Bool.false_eq_true, if_false, List.sum_cons]
      omega

theorem sum_dSet_absent {α : Type} (g : α → Nat) {m : List (Nat × α)} {k : Nat}
    (v : α) (hget : dGet m k = none) :
    ((dSet m k v).map (fun p => g p.2)).sum = (m.map (fun p => g p.2)).sum + g v := by
  unfold dSet
  rw [if_neg (by simp [dGet_none_any hget])]
  simp

theorem mem_dSet_self {α : Type} (m : List (Nat × α)) (k : Nat) (v : α) :
    (k, v) ∈ dSet m k v := by
  unfold dSet
  split
  case isTrue h =>
    rcases List.any_eq_true.mp h with ⟨p, hp, hpk⟩
    exact List.mem_map.mpr ⟨p, hp, by simp [hpk]⟩
  case isFalse h =>
    simp

theorem mem_dSet_of_ne {α : Type} {m : List (Nat × α)} {k : Nat} {v : α}
    {p : Nat × α} (hp : p ∈ m) (hne : p.1 ≠ k) : p ∈ dSet m k v := by
  unfold dSet
  split
  · exact List.mem_map.mpr ⟨p, hp, by simp [hne]⟩
  · exact List.mem_append_left _ hp

theorem mem_of_mem_dSet {α : Type} {m : List (Nat × α)} {k : Nat} {v : α}
    {p : Nat × α} (hp : p ∈ dSet m k v) : p ∈ m ∨ p = (k, v) := by
  unfold dSet at hp
  split at hp
  · rcases List.mem_map.mp hp with ⟨q, hq, hqe⟩
    by_cases hqk : q.1 = k
    · right; rw [← hqe]; simp [hqk]
    · left; rw [← hqe]; simpa [hqk] using hq
  · rcases List.mem_append.mp hp with h | h
    · exact Or.inl h
    · right; simpa using h

theorem dGet_of_mem_nodup {α : Type} {m : List (Nat × α)} {k : Nat} {v : α}
    (hnd : (m.map Prod.fst).Nodup) (hmem : (k, v) ∈ m) : dGet m k = some v := by
  induction m with
  | nil => simp at hmem
  | cons p rest ih =>
    rw [List.map_cons, List.nodup_cons] at hnd
    rcases List.mem_cons.mp hmem with h | h
    · subst h
      unfold dGet
      rw [List.find?_cons_of_pos _ (by simp)]
      rfl
    · have hp : p.1 ≠ k := by
        intro hc
        exact hnd.1 (List.mem_map.mpr ⟨(k, v), h, by simp [hc]⟩)
      unfold dGet at ih ⊢
      rw [List.find?_cons_of_neg _ (by simpa using hp)]
      exact ih hnd.2 h

theorem mem_of_dGet {α : Type} {m : List (Nat × α)} {k : Nat} {v : α}
    (h : dGet m k = some v) : (k, v) ∈ m := by
  unfold dGet at h
  rcases Option.map_eq_some'.mp h with ⟨q, hq, hv⟩
  have h1 : q ∈ m := List.mem_of_find?_eq_some hq
  have h2 := List.find?_some hq
  have : q = (k, v) := by
    rcases q with ⟨a, b⟩
    simp only at hv
    simp only [beq_iff_eq] at h2
    simp [h2, hv]
  rwa [this] at h1

/-! ## Writer invariant -/

/-- Every record currently held by the writer: rows already written to a
parquet sink plus rows still buffered. -/
def storeRecords (st : WriterState) : List Record :=
  (st.writers.map (fun p => p.2)).flatten ++ (st.buffers.map (fun p => p.2)).flatten

def sumCounts (st : WriterState) : Nat := (st.counts.map (fun p => p.2)).sum

def sumBufLens (st : WriterState) : Nat := (st.buffers.map (fun p => p.2.length)).sum

/-- State invariant of `ShardedParquetWriter`: the dicts have unique keys,
`writers` and `counts` are created in lock step, the row counters add up
to the rows written across all flushes, buffered plus written rows add up
to the rows ever added, and no added record is ever dropped. -/
def WriterInv (st : WriterState) : Prop :=
  (st.buffers.map Prod.fst).Nodup ∧
  (st.counts.map Prod.fst).Nodup ∧
  (st.writers.map Prod.fst).Nodup ∧
  st.counts.map Prod.fst = st.writers.map Prod.fst ∧
  sumCounts st = st.flushLog.sum ∧
  sumBufLens st + sumCounts st = st.added.length ∧
  ∀ r ∈ st.added, r ∈ storeRecords st

theorem writerInv_init : WriterInv initWriter := by
  refine ⟨?_, ?_, ?_, ?_, ?_, ?_, ?_⟩ <;> simp [initWriter, sumCounts, sumBufLens]

theorem mem_flatten_vals {β : Type} {m : List (Nat × List β)} {r : β} :
    r ∈ (m.map (fun p => p.2)).flatten ↔ ∃ p ∈ m, r ∈ p.2 := by
  simp only [List.mem_flatten, List.mem_map]
  constructor
  · rintro ⟨l, ⟨p, hp, hpl⟩, hrl⟩
    exact ⟨p, hp, hpl ▸ hrl⟩
  · rintro ⟨p, hp, hr⟩
    exact ⟨p.2, ⟨p, hp, rfl⟩, hr⟩

theorem mem_flatten_dSet_superset {β : Type} {m : List (Nat × List β)}
    (hnod : (m.map Prod.fst).Nodup) {k : Nat} {old new : List β}
    (hget : dGet m k = some old) (hsub : ∀ x ∈ old, x ∈ new) {r : β}
    (hr : r ∈ (m.map (fun p => p.2)).flatten) :
    r ∈ ((dSet m k new).map (fun p => p.2)).flatten := by
  rcases mem_flatten_vals.mp hr with ⟨p, hp, hrp⟩
  by_cases hk : p.1 = k
  · have : dGet m k = some p.2 := by
      rw [← hk]
      exact dGet_of_mem_nodup hnod (by rcases p with ⟨a, b⟩; exact hp)
    rw [hget] at this
    have hpold : p.2 = old := by injection this with h; exact h.symm
    exact mem_flatten_vals.mpr ⟨(k, new), mem_dSet_self m k new, hsub r (hpold ▸ hrp)⟩
  · exact mem_flatten_vals.mpr ⟨p, mem_dSet_of_ne hp hk, hrp⟩

theorem dGet_none_iff {α : Type} {m : List (Nat × α)} {k : Nat} :
    dGet m k = none ↔ k ∉ m.map Prod.fst := by
  constructor
  · intro h hk
    rcases List.mem_map.mp hk with ⟨p, hp, hpk⟩
    have h1 := dGet_none_any h
    have h2 : m.any (fun p => p.1 == k) = true :=
      List.any_eq_true.mpr ⟨p, hp, by simp [hpk]⟩
    rw [h1] at h2
    exact Bool.false_ne_true h2
  · intro hk
    cases hv : dGet m k with
    | none => rfl
    | some v => exact absurd (List.mem_map.mpr ⟨(k, v), mem_of_dGet hv, rfl⟩) hk

theorem flush_shard_inner_spec (st : WriterState) (s : Nat) (h : WriterInv st) :
    WriterInv (flush_shard_inner st s) ∧
    (flush_shard_inner st s).added = st.added ∧
    (flush_shard_inner st s).closeCount = st.closeCount ∧
    (flush_shard_inner st s).closedStats = st.closedStats := by
  obtain ⟨hbn, hcn, hwn, hkeq, hcs, hbs, hmem⟩ := h
  unfold flush_shard_inner
  cases hbuf : dGet st.buffers s with
  | none => exact ⟨⟨hbn, hcn, hwn, hkeq, hcs, hbs, hmem⟩, rfl, rfl, rfl⟩
  | some records =>
    cases records with
    | nil => exact ⟨⟨hbn, hcn, hwn, hkeq, hcs, hbs, hmem⟩, rfl, rfl, rfl⟩
    | cons r0 rs =>
      have hbufany : st.buffers.any (fun p => p.1 == s) = true := dGet_any hbuf
      cases hw : dGet st.writers s with
      | some w =>
        have hsmemw : s ∈ st.writers.map Prod.fst :=
          List.mem_map.mpr ⟨(s, w), mem_of_dGet hw, rfl⟩
        have hsmemc : s ∈ st.counts.map Prod.fst := hkeq ▸ hsmemw
        obtain ⟨c, hc⟩ : ∃ c, dGet st.counts s = some c := by
          cases hcv : dGet st.counts s with
          | none => exact absurd hsmemc (dGet_none_iff.mp hcv)
          | some c => exact ⟨c, rfl⟩
        simp only [hw, Option.isSome_some, if_true, Option.getD_some, hc]
        refine ⟨⟨?_, ?_, ?_, ?_, ?_, ?_, ?_⟩, by trivial, by trivial, by trivial⟩
        · exact nodup_keys_dSet _ hbn
        · exact nodup_keys_dSet _ hcn
        · exact nodup_keys_dSet _ hwn
        · rw [keys_dSet_any _ (dGet_any hc), keys_dSet_any _ (dGet_any hw)]
          exact hkeq
        · show ((dSet st.counts s _).map (fun p => p.2)).sum = _
          have hsp : ((dSet st.counts s (c + (r0 :: rs).length)).map
              (fun p => p.2)).sum + c
              = (st.counts.map (fun p => p.2)).sum + (c + (r0 :: rs).length) := by
            simpa using sum_dSet_present (fun x => x) (c + (r0 :: rs).length) hcn hc
          simp only [List.sum_append, List.sum_cons, List.sum_nil]
          unfold sumCounts at hcs
          omega
        · show ((dSet st.buffers s []).map (fun p => p.2.length)).sum +
            ((dSet st.counts s _).map (fun p => p.2)).sum = st.added.length
          have h1 : ((dSet st.buffers s ([] : List Record)).map
              (fun p => p.2.length)).sum + (r0 :: rs).length
              = (st.buffers.map (fun p => p.2.length)).sum := by
            simpa using sum_dSet_present (fun l => l.length) ([] : List Record) hbn hbuf
          have h2 : ((dSet st.counts s (c + (r0 :: rs).length)).map
              (fun p => p.2)).sum + c
              = (st.counts.map (fun p => p.2)).sum + (c + (r0 :: rs).length) := by
            simpa using sum_dSet_present (fun x => x) (c + (r0 :: rs).length) hcn hc
          unfold sumBufLens sumCounts at hbs
          omega
        · intro r hr
          have hr' := hmem r hr
          unfold storeRecords at hr' ⊢
          rcases List.mem_append.mp hr' with hrw | hrb
          · exact List.mem_append_left _
              (mem_flatten_dSet_superset hwn hw
                (fun x hx => List.mem_append_left _ hx) hrw)
          · rcases mem_flatten_vals.mp hrb with ⟨p, hp, hrp⟩
            by_cases hps : p.1 = s
            · have : dGet st.buffers s = some p.2 := by
                rw [← hps]
                exact dGet_of_mem_nodup hbn (by rcases p with ⟨a, b⟩; exact hp)
              rw [hbuf] at this
              have hpv : p.2 = r0 :: rs := by injection this with h'; exact h'.symm
              refine List.mem_append_left _ (mem_flatten_vals.mpr
                ⟨(s, w ++ r0 :: rs), mem_dSet_self _ _ _, ?_⟩)
              exact List.mem_append_right _ (hpv ▸ hrp)
            · exact List.mem_append_right _
                (mem_flatten_vals.mpr ⟨p, mem_dSet_of_ne hp hps, hrp⟩)
      | none =>
        have hsnotw : s ∉ st.writers.map Prod.fst := dGet_none_iff.mp hw
        have hsnotc : s ∉ st.counts.map Prod.fst := by rw [hkeq]; exact hsnotw
        have hcnone : dGet st.counts s = none := dGet_none_iff.mpr hsnotc
        simp only [hw, Option.isSome_none, Bool.false_eq_true, if_false]
        simp only [dGet_dSet_self, Option.getD_some, List.nil_append, Nat.zero_add]
        refine ⟨⟨?_, ?_, ?_, ?_, ?_, ?_, ?_⟩, by trivial, by trivial, by trivial⟩
        · exact nodup_keys_dSet _ hbn
        · exact nodup_keys_dSet _ (nodup_keys_dSet _ hcn)
        · exact nodup_keys_dSet _ (nodup_keys_dSet _ hwn)
        · rw [keys_dSet_any _ (dGet_any (dGet_dSet_self st.counts s 0)),
              keys_dSet_any _ (dGet_any (dGet_dSet_self st.writers s ([] : List Record))),
              keys_dSet_not_any _ (dGet_none_any hcnone),
              keys_dSet_not_any _ (dGet_none_any hw), hkeq]
        · show ((dSet (dSet st.counts s 0) s _).map (fun p => p.2)).sum = _
          have h1 : ((dSet st.counts s 0).map (fun p => p.2)).sum
              = (st.counts.map (fun p => p.2)).sum := by
            simpa using sum_dSet_absent (fun x => x) 0 hcnone
          have h2 : ((dSet (dSet st.counts s 0) s ((r0 :: rs).length)).map
              (fun p => p.2)).sum
              = ((dSet st.counts s 0).map (fun p => p.2)).sum + (r0 :: rs).length := by
            simpa using sum_dSet_present (fun x => x) ((r0 :: rs).length)
              (nodup_keys_dSet _ hcn) (dGet_dSet_self st.counts s 0)
          simp only [List.sum_append, List.sum_cons, List.sum_nil]
          unfold sumCounts at hcs
          omega
        · show ((dSet st.buffers s []).map (fun p => p.2.length)).sum +
            ((dSet (dSet st.counts s 0) s _).map (fun p => p.2)).sum = st.added.length
          have h1 : ((dSet st.buffers s ([] : List Record)).map
              (fun p => p.2.length)).sum + (r0 :: rs).length
              = (st.buffers.map (fun p => p.2.length)).sum := by
            simpa using sum_dSet_present (fun l => l.length) ([] : List Record) hbn hbuf
          have h2 : ((dSet st.counts s 0).map (fun p => p.2)).sum
              = (st.counts.map (fun p => p.2)).sum := by
            simpa using sum_dSet_absent (fun x => x) 0 hcnone
          have h3 : ((dSet (dSet st.counts s 0) s ((r0 :: rs).length)).map
              (fun p => p.2)).sum
              = ((dSet st.counts s 0).map (fun p => p.2)).sum + (r0 :: rs).length := by
            simpa using sum_dSet_present (fun x => x) ((r0 :: rs).length)
              (nodup_keys_dSet _ hcn) (dGet_dSet_self st.counts s 0)
          unfold sumBufLens sumCounts at hbs
          omega
        · intro r hr
          have hr' := hmem r hr
          unfold storeRecords at hr' ⊢
          rcases List.mem_append.mp hr' with hrw | hrb
          · rcases mem_flatten_vals.mp hrw with ⟨p, hp, hrp⟩
            have hps : p.1 ≠ s := by
              intro hc'
              exact hsnotw (List.mem_map.mpr ⟨p, hp, hc'⟩)
            exact List.mem_append_left _ (mem_flatten_vals.mpr
              ⟨p, mem_dSet_of_ne (mem_dSet_of_ne hp hps) hps, hrp⟩)
          · rcases mem_flatten_vals.mp hrb with ⟨p, hp, hrp⟩
            by_cases hps : p.1 = s
            · have : dGet st.buffers s = some p.2 := by
                rw [← hps]
                exact dGet_of_mem_nodup hbn (by rcases p with ⟨a, b⟩; exact hp)
              rw [hbuf] at this
              have hpv : p.2 = r0 :: rs := by injection this with h'; exact h'.symm
              exact List.mem_append_left _ (mem_flatten_vals.mpr
                ⟨(s, r0 :: rs), mem_dSet_self _ _ _, hpv ▸ hrp⟩)
            · exact List.mem_append_right _
                (mem_flatten_vals.mpr ⟨p, mem_dSet_of_ne hp hps, hrp⟩)

theorem add_record_spec (cfg : WriterCfg) (st : WriterState) (r : Record)
    (h : WriterInv st) :
    WriterInv (add_record cfg st r) ∧
    (add_record cfg st r).added = st.added ++ [r] ∧
    (add_record cfg st r).closeCount = st.closeCount ∧
    (add_record cfg st r).closedStats = st.closedStats := by
  obtain ⟨hbn, hcn, hwn, hkeq, hcs, hbs, hmem⟩ := h
  set s := compute_shard ((recGet r cfg.shard_key).getD Value.null) cfg.num_shards with hs
  set st' : WriterState :=
    { st with
      buffers := dSet st.buffers s ((dGet st.buffers s).getD [] ++ [r])
      added := st.added ++ [r] } with hst'
  have hinv' : WriterInv st' := by
    refine ⟨nodup_keys_dSet _ hbn, hcn, hwn, hkeq, hcs, ?_, ?_⟩
    · show ((dSet st.buffers s ((dGet st.buffers s).getD [] ++ [r])).map
        (fun p => p.2.length)).sum + sumCounts st = (st.added ++ [r]).length
      cases hbg : dGet st.buffers s with
      | some buf =>
        have h1 : ((dSet st.buffers s (buf ++ [r])).map
            (fun p => p.2.length)).sum + buf.length
            = (st.buffers.map (fun p => p.2.length)).sum + (buf ++ [r]).length := by
          simpa using sum_dSet_present (fun l => l.length) (buf ++ [r]) hbn hbg
        unfold sumBufLens at hbs
        simp only [hbg, Option.getD_some]
        simp only [List.length_append, List.length_cons, List.length_nil] at h1 ⊢
        omega
      | none =>
        have h1 : ((dSet st.buffers s ([] ++ [r])).map
            (fun p => p.2.length)).sum
            = (st.buffers.map (fun p => p.2.length)).sum + ([] ++ [r]).length := by
          simpa using sum_dSet_absent (fun l => l.length) ([] ++ [r]) hbg
        unfold sumBufLens at hbs
        simp only [hbg, Option.getD_none]
        simp only [List.nil_append, List.length_append, List.length_cons,
          List.length_nil] at h1 ⊢
        omega
    · intro r' hr'
      show r' ∈ storeRecords st'
      have hbufmem : r' = r ∨ r' ∈ st.added := by
        rcases List.mem_append.mp hr' with h' | h'
        · exact Or.inr h'
        · exact Or.inl (by simpa using h')
      unfold storeRecords
      rcases hbufmem with h' | h'
      · subst h'
        refine List.mem_append_right _ (mem_flatten_vals.mpr
          ⟨(s, (dGet st.buffers s).getD [] ++ [r']), mem_dSet_self _ _ _, ?_⟩)
        exact List.mem_append_right _ (List.mem_singleton.mpr rfl)
      · have hold := hmem r' h'
        unfold storeRecords at hold
        rcases List.mem_append.mp hold with hw' | hb'
        · exact List.mem_append_left _ hw'
        · cases hbg : dGet st.buffers s with
          | some buf =>
            refine List.mem_append_right _ ?_
            have := @mem_flatten_dSet_superset Record st.buffers hbn s buf
              (buf ++ [r]) hbg (fun x hx => List.mem_append_left [r] hx) r' hb'
            simpa [hbg] using this
          | none =>
            refine List.mem_append_right _ ?_
            rcases mem_flatten_vals.mp hb' with ⟨p, hp, hrp⟩
            have hps : p.1 ≠ s := by
              intro hc'
              exact (dGet_none_iff.mp hbg) (List.mem_map.mpr ⟨p, hp, hc'⟩)
            exact mem_flatten_vals.mpr ⟨p, mem_dSet_of_ne hp hps, hrp⟩
  have heq : add_record cfg st r =
      (if ((dGet st.buffers s).getD [] ++ [r]).length ≥ cfg.batch_rows
        then flush_shard_inner st' s else st') := rfl
  rw [heq]
  split
  · obtain ⟨h1, h2, h3, h4⟩ := flush_shard_inner_spec st' s hinv'
    exact ⟨h1, h2, h3, h4⟩
  · exact ⟨hinv', rfl, rfl, rfl⟩

theorem flush_buffer_self (st : WriterState) (s : Nat) :
    (dGet (flush_shard_inner st s).buffers s).getD [] = [] := by
  unfold flush_shard_inner
  cases hbuf : dGet st.buffers s with
  | none => simp [hbuf]
  | some records =>
    cases records with
    | nil => simp [hbuf]
    | cons r0 rs =>
      cases hw : dGet st.writers s <;>
        simp [hw, dGet_dSet_self]

theorem flush_buffer_other (st : WriterState) (s s' : Nat) (hne : s' ≠ s) :
    dGet (flush_shard_inner st s).buffers s' = dGet st.buffers s' := by
  unfold flush_shard_inner
  cases hbuf : dGet st.buffers s with
  | none => rfl
  | some records =>
    cases records with
    | nil => rfl
    | cons r0 rs =>
      cases hw : dGet st.writers s <;>
        simp [hw, dGet_dSet_ne _ _ _ _ hne]

theorem foldl_flush_spec (ks : List Nat) :
    ∀ st : WriterState, WriterInv st →
    WriterInv (ks.foldl flush_shard_inner st) ∧
    (ks.foldl flush_shard_inner st).added = st.added ∧
    (ks.foldl flush_shard_inner st).closeCount = st.closeCount ∧
    (ks.foldl flush_shard_inner st).closedStats = st.closedStats := by
  induction ks with
  | nil => intro st hinv; exact ⟨hinv, rfl, rfl, rfl⟩
  | cons k rest ih =>
    intro st hinv
    obtain ⟨h1, h2, h3, h4⟩ := flush_shard_inner_spec st k hinv
    obtain ⟨g1, g2, g3, g4⟩ := ih (flush_shard_inner st k) h1
    exact ⟨g1, g2.trans h2, g3.trans h3, g4.trans h4⟩

theorem foldl_flush_empties (ks : List Nat) :
    ∀ st : WriterState,
    (∀ k, (dGet st.buffers k).getD [] ≠ [] → k ∈ ks) →
    ∀ k', (dGet ((ks.foldl flush_shard_inner st)).buffers k').getD [] = [] := by
  induction ks with
  | nil =>
    intro st hsub k'
    by_contra hne
    exact absurd (hsub k' hne) (List.not_mem_nil k')
  | cons k rest ih =>
    intro st hsub k'
    apply ih (flush_shard_inner st k)
    intro k2 hne
    by_cases hk : k2 = k
    · subst hk
      exact absurd (flush_buffer_self st k2) hne
    · rw [flush_buffer_other st k k2 hk] at hne
      rcases List.mem_cons.mp (hsub k2 hne) with h' | h'
      · exact absurd h' hk
      · exact h'

theorem sumBufLens_eq_zero (st : WriterState)
    (hbn : (st.buffers.map Prod.fst).Nodup)
    (hempty : ∀ k, (dGet st.buffers k).getD [] = []) : sumBufLens st = 0 := by
  unfold sumBufLens
  apply List.sum_eq_zero
  intro x hx
  rcases List.mem_map.mp hx with ⟨p, hp, hpx⟩
  have hg : dGet st.buffers p.1 = some p.2 :=
    dGet_of_mem_nodup hbn (by rcases p with ⟨a, b⟩; exact hp)
  have he := hempty p.1
  rw [hg, Option.getD_some] at he
  rw [← hpx, he]
  rfl

theorem closeWriter_spec (cfg : WriterCfg) (st : WriterState) (h : WriterInv st) :
    (closeWriter cfg st).1.total_rows = st.added.length ∧
    (closeWriter cfg st).1.total_rows = (closeWriter cfg st).2.flushLog.sum ∧
    (closeWriter cfg st).2.closeCount = st.closeCount + 1 ∧
    (closeWriter cfg st).2.closedStats = some (closeWriter cfg st).1 := by
  have hsub : ∀ k, (dGet st.buffers k).getD [] ≠ [] → k ∈ st.buffers.map Prod.fst := by
    intro k hne
    cases hg : dGet st.buffers k with
    | none => rw [hg] at hne; exact absurd rfl hne
    | some v => exact List.mem_map.mpr ⟨(k, v), mem_of_dGet hg, rfl⟩
  obtain ⟨hinv1, hadd1, hcc1, _⟩ := foldl_flush_spec (st.buffers.map Prod.fst) st h
  have hempty := foldl_flush_empties (st.buffers.map Prod.fst) st hsub
  obtain ⟨hbn1, _, _, _, hcs1, hbs1, _⟩ := hinv1
  have hzero := sumBufLens_eq_zero _ hbn1 hempty
  have htot : sumCounts ((st.buffers.map Prod.fst).foldl flush_shard_inner st)
      = st.added.length := by
    rw [← hadd1]
    omega
  refine ⟨?_, ?_, ?_, rfl⟩
  · show sumCounts ((st.buffers.map Prod.fst).foldl flush_shard_inner st)
      = st.added.length
    exact htot
  · show sumCounts ((st.buffers.map Prod.fst).foldl flush_shard_inner st)
      = ((st.buffers.map Prod.fst).foldl flush_shard_inner st).flushLog.sum
    exact hcs1
  · show ((st.buffers.map Prod.fst).foldl flush_shard_inner st).closeCount + 1
      = st.closeCount + 1
    rw [hcc1]

/-! ## Operation sequences on one writer -/

/-- One public writer call, as issued by client threads: the writer's lock
serializes these, so any concurrent history is some interleaved sequence
of them. -/
inductive WOp where
  | addOp (r : Record)
  | flushOp (s : Nat)
  | flushAllOp

def applyOp (cfg : WriterCfg) (st : WriterState) : WOp → WriterState
  | .addOp r => add_record cfg st r
  | .flushOp s => flush_shard st s
  | .flushAllOp => flush_all st

theorem applyOp_inv (cfg : WriterCfg) (st : WriterState) (op : WOp)
    (h : WriterInv st) : WriterInv (applyOp cfg st op) := by
  cases op with
  | addOp r => exact (add_record_spec cfg st r h).1
  | flushOp s => exact (flush_shard_inner_spec st s h).1
  | flushAllOp => exact (foldl_flush_spec _ st h).1

theorem execOps_inv (cfg : WriterCfg) (ops : List WOp) :
    WriterInv (ops.foldl (applyOp cfg) initWriter) := by
  suffices h : ∀ st, WriterInv st → WriterInv (ops.foldl (applyOp cfg) st) from
    h initWriter writerInv_init
  induction ops with
  | nil => exact fun st h => h
  | cons op rest ih => exact fun st h => ih _ (applyOp_inv cfg st op h)

theorem foldl_add_spec (cfg : WriterCfg) (rs : List Record) :
    ∀ st : WriterState, WriterInv st →
    WriterInv (rs.foldl (add_record cfg) st) ∧
    (rs.foldl (add_record cfg) st).added = st.added ++ rs ∧
    (rs.foldl (add_record cfg) st).closeCount = st.closeCount ∧
    (rs.foldl (add_record cfg) st).closedStats = st.closedStats := by
  induction rs with
  | nil => exact fun st h => ⟨h, by simp, rfl, rfl⟩
  | cons r rest ih =>
    intro st h
    obtain ⟨h1, h2, h3, h4⟩ := add_record_spec cfg st r h
    obtain ⟨g1, g2, g3, g4⟩ := ih (add_record cfg st r) h1
    refine ⟨g1, ?_, g3.trans h3, g4.trans h4⟩
    rw [List.foldl_cons, g2, h2]
    simp

/-! ## Streaming (C7) and canonical serialization (C5) lemmas -/

theorem stream_json_lines_eq (parse : String → Option Record) (lines : List String) :
    stream_json_lines parse lines
      = ((lines.map pyStrip).filter (fun l => l ≠ "")).filterMap parse := by
  induction lines with
  | nil => rfl
  | cons line rest ih =>
    by_cases hb : pyStrip line = ""
    · simp [stream_json_lines, hb, ih]
    · cases hp : parse (pyStrip line) with
      | some r => simp [stream_json_lines, hb, hp, ih]
      | none => simp [stream_json_lines, hb, hp, ih]

theorem sortEntries_sorted (l : List (String × Value)) :
    (sortEntries l).Pairwise (fun p q : String × Value => p.1 ≤ q.1) := by
  have h := @List.sorted_mergeSort (String × Value) (fun p q => decide (p.1 ≤ q.1))
    (fun a b c h1 h2 => by
      simp only [decide_eq_true_eq] at *
      exact le_trans h1 h2)
    (fun a b => by
      simp only [Bool.or_eq_true, decide_eq_true_eq]
      exact le_total a.1 b.1)
    l
  refine h.imp ?_
  intro a b hab
  simpa using hab

theorem sortEntries_eq_of_perm (l₁ l₂ : List (String × Value)) (hperm : l₁.Perm l₂)
    (hnd : (l₁.map Prod.fst).Nodup) : sortEntries l₁ = sortEntries l₂ := by
  have hp1 : (sortEntries l₁).Perm l₁ := List.mergeSort_perm _ _
  have hp2 : (sortEntries l₂).Perm l₂ := List.mergeSort_perm _ _
  have hp : (sortEntries l₁).Perm (sortEntries l₂) := hp1.trans (hperm.trans hp2.symm)
  have hnd1 : ((sortEntries l₁).map Prod.fst).Nodup := ((hp1.map Prod.fst).nodup_iff).mpr hnd
  have hnd2' : (l₂.map Prod.fst).Nodup := ((hperm.map Prod.fst).nodup_iff).mp hnd
  have hnd2 : ((sortEntries l₂).map Prod.fst).Nodup :=
    ((hp2.map Prod.fst).nodup_iff).mpr hnd2'
  have hs1 := sortEntries_sorted l₁
  have hs2 := sortEntries_sorted l₂
  have hne1 : (sortEntries l₁).Pairwise (fun p q : String × Value => p.1 ≠ q.1) :=
    List.pairwise_map.mp hnd1
  have hne2 : (sortEntries l₂).Pairwise (fun p q : String × Value => p.1 ≠ q.1) :=
    List.pairwise_map.mp hnd2
  have hlt1 : (sortEntries l₁).Pairwise (fun p q : String × Value => p.1 < q.1) :=
    (hs1.and hne1).imp (fun hab => lt_of_le_of_ne hab.1 hab.2)
  have hlt2 : (sortEntries l₂).Pairwise (fun p q : String × Value => p.1 < q.1) :=
    (hs2.and hne2).imp (fun hab => lt_of_le_of_ne hab.1 hab.2)
  haveI : IsAntisymm (String × Value) (fun p q => p.1 < q.1) :=
    ⟨fun a b h1 h2 => absurd h2 (lt_asymm h1)⟩
  exact List.eq_of_perm_of_sorted hp hlt1 hlt2

theorem dumps_obj_eq_of_perm (l₁ l₂ : List (String × Value)) (hperm : l₁.Perm l₂)
    (hnd : (l₁.map Prod.fst).Nodup) : dumps (Value.obj l₁) = dumps (Value.obj l₂) := by
  have hso := sortEntries_eq_of_perm l₁ l₂ hperm hnd
  simp only [dumps]
  rw [hso]

/-! ## Orchestrator lemmas -/

theorem process_subprocess_output_spec (cfg : WriterCfg) (parse : String → Option Record)
    (st : WriterState) (lines : List String) (h : WriterInv st) :
    WriterInv (process_subprocess_output cfg parse st lines) ∧
    (process_subprocess_output cfg parse st lines).added
      = st.added ++ stream_json_lines parse lines ∧
    (process_subprocess_output cfg parse st lines).closeCount = st.closeCount ∧
    (process_subprocess_output cfg parse st lines).closedStats = st.closedStats :=
  foldl_add_spec cfg (stream_json_lines parse lines) st h

theorem rmf_aux (cfg : WriterCfg) (parse : String → Option Record)
    (workers : Option String → WorkerBehavior) :
    ∀ (order : List String) (st : WriterState) (errs : List String),
    (order.foldl (fun acc f =>
      let w := workers (some f)
      let st' := process_subprocess_output cfg parse acc.1 w.lines
      if w.exitCode ≠ 0 then (st', acc.2 ++ [f ++ ": " ++ unitErrMsg w.exitCode f])
      else (st', acc.2)) (st, errs))
    = (order.foldl (fun acc f =>
        process_subprocess_output cfg parse acc (workers (some f)).lines) st,
       errs ++ (order.filter (fun f => (workers (some f)).exitCode ≠ 0)).map
         (fun f => f ++ ": " ++ unitErrMsg (workers (some f)).exitCode f)) := by
  intro order
  induction order with
  | nil => intro st errs; simp
  | cons f rest ih =>
    intro st errs
    simp only [List.foldl_cons, List.filter_cons]
    by_cases hf : (workers (some f)).exitCode ≠ 0
    · rw [if_pos hf, ih]
      simp [hf]
    · rw [if_neg hf, ih]
      simp [hf]

theorem run_multiple_files_eq (cfg : WriterCfg) (parse : String → Option Record)
    (workers : Option String → WorkerBehavior) (order : List String) (st : WriterState) :
    run_multiple_files cfg parse workers order st
    = (order.foldl (fun acc f =>
        process_subprocess_output cfg parse acc (workers (some f)).lines) st,
       (order.filter (fun f => (workers (some f)).exitCode ≠ 0)).map
         (fun f => f ++ ": " ++ unitErrMsg (workers (some f)).exitCode f)) := by
  unfold run_multiple_files
  rw [rmf_aux]
  simp

theorem foldl_process_spec (cfg : WriterCfg) (parse : String → Option Record)
    (workers : Option String → WorkerBehavior) (order : List String) :
    ∀ st : WriterState, WriterInv st →
    WriterInv (order.foldl (fun acc f =>
      process_subprocess_output cfg parse acc (workers (some f)).lines) st) ∧
    (order.foldl (fun acc f =>
      process_subprocess_output cfg parse acc (workers (some f)).lines) st).added
      = st.added
        ++ (order.map (fun f => stream_json_lines parse (workers (some f)).lines)).flatten ∧
    (order.foldl (fun acc f =>
      process_subprocess_output cfg parse acc (workers (some f)).lines) st).closeCount
      = st.closeCount ∧
    (order.foldl (fun acc f =>
      process_subprocess_output cfg parse acc (workers (some f)).lines) st).closedStats
      = st.closedStats := by
  induction order with
  | nil => exact fun st h => ⟨h, by simp, rfl, rfl⟩
  | cons f rest ih =>
    intro st h
    obtain ⟨h1, h2, h3, h4⟩ := process_subprocess_output_spec cfg parse st
      (workers (some f)).lines h
    obtain ⟨g1, g2, g3, g4⟩ := ih _ h1
    refine ⟨g1, ?_, g3.trans h3, g4.trans h4⟩
    rw [List.foldl_cons, g2, h2]
    simp

theorem rmf_state_spec (cfg : WriterCfg) (parse : String → Option Record)
    (workers : Option String → WorkerBehavior) (order : List String) :
    WriterInv (run_multiple_files cfg parse workers order initWriter).1 ∧
    (run_multiple_files cfg parse workers order initWriter).1.closeCount = 0 ∧
    (run_multiple_files cfg parse workers order initWriter).1.added
      = (order.map (fun f => stream_json_lines parse (workers (some f)).lines)).flatten ∧
    (run_multiple_files cfg parse workers order initWriter).2
      = (order.filter (fun f => (workers (some f)).exitCode ≠ 0)).map
          (fun f => f ++ ": " ++ unitErrMsg (workers (some f)).exitCode f) := by
  rw [run_multiple_files_eq]
  obtain ⟨h1, h2, h3, _⟩ := foldl_process_spec cfg parse workers order initWriter writerInv_init
  refine ⟨h1, h3.trans rfl, ?_, rfl⟩
  rw [h2]
  simp [initWriter]

theorem close_branch (cfg : WriterCfg) (stX : WriterState) (hinv : WriterInv stX)
    (hcc : stX.closeCount = 0) :
    (closeWriter cfg stX).2.closeCount = 1 ∧
    (closeWriter cfg stX).2.closedStats = some (closeWriter cfg stX).1 := by
  obtain ⟨_, _, h3, h4⟩ := closeWriter_spec cfg stX hinv
  exact ⟨by rw [h3, hcc], h4⟩

theorem orchestratorRun_imports (cfg : WriterCfg) (parse : String → Option Record)
    (workers : Option String → WorkerBehavior) (mods : List String) (order : List String) :
    orchestratorRun cfg parse workers (.imports mods) order
    = (if (workers none).exitCode ≠ 0
        then (.error (.workerExit (workers none).exitCode none),
              process_subprocess_output cfg parse initWriter (workers none).lines)
        else (.ok (closeWriter cfg
                (process_subprocess_output cfg parse initWriter (workers none).lines)).1,
              (closeWriter cfg
                (process_subprocess_output cfg parse initWriter (workers none).lines)).2)) := rfl

theorem orchestratorRun_single (cfg : WriterCfg) (parse : String → Option Record)
    (workers : Option String → WorkerBehavior) (f : String) (order : List String) :
    orchestratorRun cfg parse workers (.readFiles [f]) order
    = (if (workers (some f)).exitCode ≠ 0
        then (.error (.workerExit (workers (some f)).exitCode (some f)),
              process_subprocess_output cfg parse initWriter (workers (some f)).lines)
        else (.ok (closeWriter cfg
                (process_subprocess_output cfg parse initWriter (workers (some f)).lines)).1,
              (closeWriter cfg
                (process_subprocess_output cfg parse initWriter (workers (some f)).lines)).2)) := rfl

theorem orchestratorRun_multi (cfg : WriterCfg) (parse : String → Option Record)
    (workers : Option String → WorkerBehavior) (f1 f2 : String) (rest : List String)
    (order : List String) :
    orchestratorRun cfg parse workers (.readFiles (f1 :: f2 :: rest)) order
    = (if (run_multiple_files cfg parse workers order initWriter).2 ≠ []
        then (.error (.aggregate (run_multiple_files cfg parse workers order initWriter).2),
              (run_multiple_files cfg parse workers order initWriter).1)
        else (.ok (closeWriter cfg (run_multiple_files cfg parse workers order initWriter).1).1,
              (closeWriter cfg (run_multiple_files cfg parse workers order initWriter).1).2)) := rfl

theorem orchestratorRun_nilFiles (cfg : WriterCfg) (parse : String → Option Record)
    (workers : Option String → WorkerBehavior) (order : List String) :
    orchestratorRun cfg parse workers (.readFiles []) order
    = (if (run_multiple_files cfg parse workers order initWriter).2 ≠ []
        then (.error (.aggregate (run_multiple_files cfg parse workers order initWriter).2),
              (run_multiple_files cfg parse workers order initWriter).1)
        else (.ok (closeWriter cfg (run_multiple_files cfg parse workers order initWriter).1).1,
              (closeWriter cfg (run_multiple_files cfg parse workers order initWriter).1).2)) := rfl

theorem orchestratorRun_close (cfg : WriterCfg) (parse : String → Option Record)
    (workers : Option String → WorkerBehavior) (target : JobTarget) (order : List String) :
    (∀ stats st, orchestratorRun cfg parse workers target order = (.ok stats, st) →
      st.closeCount = 1 ∧ st.closedStats = some stats) ∧
    (∀ e st, orchestratorRun cfg parse workers target order = (.error e, st) →
      st.closeCount = 0) := by
  cases target with
  | imports mods =>
    obtain ⟨hinv, _, hcc, _⟩ := process_subprocess_output_spec cfg parse initWriter
      (workers none).lines writerInv_init
    rw [show initWriter.closeCount = 0 from rfl] at hcc
    by_cases hx : (workers none).exitCode ≠ 0
    · constructor
      · intro stats st heq
        rw [orchestratorRun_imports, if_pos hx] at heq
        simp at heq
      · intro e st heq
        rw [orchestratorRun_imports, if_pos hx] at heq
        simp only [Prod.mk.injEq, Except.error.injEq] at heq
        rw [← heq.2]
        exact hcc
    · constructor
      · intro stats st heq
        rw [orchestratorRun_imports, if_neg hx] at heq
        simp only [Prod.mk.injEq, Except.ok.injEq] at heq
        obtain ⟨c1, c2⟩ := close_branch cfg _ hinv hcc
        rw [← heq.2, ← heq.1]
        exact ⟨c1, c2⟩
      · intro e st heq
        rw [orchestratorRun_imports, if_neg hx] at heq
        simp at heq
  | readFiles fs =>
    match fs with
    | [] =>
      obtain ⟨hinv, hcc, _, _⟩ := rmf_state_spec cfg parse workers order
      by_cases hx : (run_multiple_files cfg parse workers order initWriter).2 ≠ []
      · constructor
        · intro stats st heq
          rw [orchestratorRun_nilFiles, if_pos hx] at heq
          simp at heq
        · intro e st heq
          rw [orchestratorRun_nilFiles, if_pos hx] at heq
          simp only [Prod.mk.injEq, Except.error.injEq] at heq
          rw [← heq.2]
          exact hcc
      · constructor
        · intro stats st heq
          rw [orchestratorRun_nilFiles, if_neg hx] at heq
          simp only [Prod.mk.injEq, Except.ok.injEq] at heq
          obtain ⟨c1, c2⟩ := close_branch cfg _ hinv hcc
          rw [← heq.2, ← heq.1]
          exact ⟨c1, c2⟩
        · intro e st heq
          rw [orchestratorRun_nilFiles, if_neg hx] at heq
          simp at heq
    | [f] =>
      obtain ⟨hinv, _, hcc, _⟩ := process_subprocess_output_spec cfg parse initWriter
        (workers (some f)).lines writerInv_init
      rw [show initWriter.closeCount = 0 from rfl] at hcc
      by_cases hx : (workers (some f)).exitCode ≠ 0
      · constructor
        · intro stats st heq
          rw [orchestratorRun_single, if_pos hx] at heq
          simp at heq
        · intro e st heq
          rw [orchestratorRun_single, if_pos hx] at heq
          simp only [Prod.mk.injEq, Except.error.injEq] at heq
          rw [← heq.2]
          exact hcc
      · constructor
        · intro stats st heq
          rw [orchestratorRun_single, if_neg hx] at heq
          simp only [Prod.mk.injEq, Except.ok.injEq] at heq
          obtain ⟨c1, c2⟩ := close_branch cfg _ hinv hcc
          rw [← heq.2, ← heq.1]
          exact ⟨c1, c2⟩
        · intro e st heq
          rw [orchestratorRun_single, if_neg hx] at heq
          simp at heq
    | f1 :: f2 :: rest =>
      obtain ⟨hinv, hcc, _, _⟩ := rmf_state_spec cfg parse workers order
      by_cases hx : (run_multiple_files cfg parse workers order initWriter).2 ≠ []
      · constructor
        · intro stats st heq
          rw [orchestratorRun_multi, if_pos hx] at heq
          simp at heq
        · intro e st heq
          rw [orchestratorRun_multi, if_pos hx] at heq
          simp only [Prod.mk.injEq, Except.error.injEq] at heq
          rw [← heq.2]
          exact hcc
      · constructor
        · intro stats st heq
          rw [orchestratorRun_multi, if_neg hx] at heq
          simp only [Prod.mk.injEq, Except.ok.injEq] at heq
          obtain ⟨c1, c2⟩ := close_branch cfg _ hinv hcc
          rw [← heq.2, ← heq.1]
          exact ⟨c1, c2⟩
        · intro e st heq
          rw [orchestratorRun_multi, if_neg hx] at heq
          simp at heq

/-! ## Shutdown-flag lemmas -/

theorem supStep_shutdown (st : SupervisorState) (e : SupEvent)
    (h : st.shutdown = true) : (supStep st e).shutdown = true := by
  cases e with
  | setFlag => rfl
  | check u => simp only [supStep]; split <;> [exact h; exact h]
  | spawn u => simp only [supStep]; split <;> [exact h; exact h]

/-- After the shutdown flag is set, a unit that has not yet passed its
pre-spawn check can only remain unchecked or fail its check. -/
def BlockedAt (st : SupervisorState) (u : Nat) : Prop :=
  st.shutdown = true ∧
  (st.units.getD u .failed = .notStarted ∨ st.units.getD u .failed = .failed)

theorem getD_set_same (l : List UnitStatus) (u : Nat) (x d : UnitStatus) :
    (l.set u x).getD u d = if u < l.length then x else d := by
  by_cases h : u < l.length
  · simp [List.getD, List.getElem?_set_self, h]
  · have h' : l.length ≤ u := by omega
    simp only [List.getD, List.get?_eq_getElem?]
    rw [List.getElem?_eq_none (by simpa [List.length_set] using h')]
    simp [h]

theorem getD_set_other (l : List UnitStatus) (u u' : Nat) (x d : UnitStatus)
    (h : u' ≠ u) : (l.set u' x).getD u d = l.getD u d := by
  simp [List.getD, List.getElem?_set_ne, h]

theorem supStep_blocked (st : SupervisorState) (e : SupEvent) (u : Nat)
    (h : BlockedAt st u) : BlockedAt (supStep st e) u := by
  obtain ⟨hf, hu⟩ := h
  cases e with
  | setFlag => exact ⟨rfl, hu⟩
  | check u' =>
    refine ⟨supStep_shutdown st _ hf, ?_⟩
    simp only [supStep]
    split
    · by_cases hu' : u' = u
      · subst hu'
        rw [hf]
        simp only [if_true]
        rw [getD_set_same]
        split
        · exact Or.inr rfl
        · exact Or.inr rfl
      · rw [getD_set_other _ _ _ _ _ hu']
        exact hu
    · exact hu
  | spawn u' =>
    refine ⟨supStep_shutdown st _ hf, ?_⟩
    simp only [supStep]
    split
    case isTrue hcond =>
      by_cases hu' : u' = u
      · subst hu'
        rcases hu with h' | h' <;> rw [h'] at hcond <;> simp at hcond
      · rw [getD_set_other _ _ _ _ _ hu']
        exact hu
    case isFalse => exact hu

theorem supExec_blocked (st : SupervisorState) (u : Nat) (es : List SupEvent)
    (h : BlockedAt st u) : BlockedAt (supExec st es) u := by
  induction es generalizing st with
  | nil => exact h
  | cons e rest ih => exact ih (supStep st e) (supStep_blocked st e u h)

/-! ## Claim theorems -/

unseal blakeChunks in
set_option maxRecDepth 8000 in
/-- C1 (counterexample): with `batch_rows = 2`, after the 2nd `add_record`
with the same shard key the auto-flush has written **2** records in its
single `write_table` call (`flushLog = [2]`), not 1 as the claim states:
the flush happens after the append, once the buffer holds `batch_rows`
records, and writes the whole buffer. -/
theorem C1_counterexample :
    (add_record ⟨"out", 1, 2, "k"⟩
      (add_record ⟨"out", 1, 2, "k"⟩ initWriter [("k", Value.str "a")])
      [("k", Value.str "a")]).flushLog = [2] ∧ (2 : Nat) ≠ 1 := by
  exact ⟨by decide, by decide⟩

/-- C1 (amended): with `batch_rows = 2`, three successive `add_record`
calls with the same shard-key value: the 2nd call auto-flushes the
shard's buffer, writing **2** records (one batch); the 3rd call leaves 1
record buffered; `closeWriter` flushes the remaining record and the final
`total_rows` is 3. -/
theorem C1_amended (cfg : WriterCfg) (v : Value) (r1 r2 r3 : Record)
    (hb : cfg.batch_rows = 2)
    (h1 : recGet r1 cfg.shard_key = some v)
    (h2 : recGet r2 cfg.shard_key = some v)
    (h3 : recGet r3 cfg.shard_key = some v) :
    dGet (add_record cfg (add_record cfg initWriter r1) r2).buffers
        (compute_shard v cfg.num_shards) = some [] ∧
    (add_record cfg (add_record cfg initWriter r1) r2).flushLog = [2] ∧
    dGet (add_record cfg (add_record cfg initWriter r1) r2).counts
        (compute_shard v cfg.num_shards) = some 2 ∧
    dGet (add_record cfg (add_record cfg (add_record cfg initWriter r1) r2) r3).buffers
        (compute_shard v cfg.num_shards) = some [r3] ∧
    (closeWriter cfg
        (add_record cfg (add_record cfg (add_record cfg initWriter r1) r2) r3)).1.total_rows
      = 3 ∧
    (closeWriter cfg
        (add_record cfg (add_record cfg (add_record cfg initWriter r1) r2) r3)).2.flushLog
      = [2, 1] := by
  set s := compute_shard v cfg.num_shards with hs
  have e1 : add_record cfg initWriter r1 =
      { writers := [], buffers := [(s, [r1])], counts := [], flushLog := [],
        added := [r1], closeCount := 0, closedStats := none } := by
    simp [add_record, h1, hb, dGet, dSet, initWriter]
  have e2 : add_record cfg
      { writers := [], buffers := [(s, [r1])], counts := [], flushLog := [],
        added := [r1], closeCount := 0, closedStats := none } r2 =
      { writers := [(s, [r1, r2])], buffers := [(s, [])], counts := [(s, 2)],
        flushLog := [2], added := [r1, r2], closeCount := 0, closedStats := none } := by
    simp [add_record, h2, hb, flush_shard_inner, dGet, dSet]
  have e3 : add_record cfg
      { writers := [(s, [r1, r2])], buffers := [(s, [])], counts := [(s, 2)],
        flushLog := [2], added := [r1, r2], closeCount := 0, closedStats := none } r3 =
      { writers := [(s, [r1, r2])], buffers := [(s, [r3])], counts := [(s, 2)],
        flushLog := [2], added := [r1, r2, r3], closeCount := 0, closedStats := none } := by
    simp [add_record, h3, hb, dGet, dSet]
  have e4 : closeWriter cfg
      { writers := [(s, [r1, r2])], buffers := [(s, [r3])], counts := [(s, 2)],
        flushLog := [2], added := [r1, r2, r3], closeCount := 0, closedStats := none } =
      ({ total_rows := 3, num_shards := 1, out_dir := cfg.out_dir },
       { writers := [(s, [r1, r2, r3])], buffers := [(s, [])], counts := [(s, 3)],
         flushLog := [2, 1], added := [r1, r2, r3], closeCount := 1,
         closedStats := some { total_rows := 3, num_shards := 1, out_dir := cfg.out_dir } }) := by
    simp [closeWriter, flush_shard_inner, dGet, dSet]
  rw [e1, e2, e3, e4]
  refine ⟨by simp [dGet], rfl, by simp [dGet], by simp [dGet], rfl, rfl⟩

/-- C1 (witness): the amended statement at a concrete configuration. -/
theorem C1_amended_witness :
    dGet (add_record ⟨"o", 1, 2, "k"⟩
        (add_record ⟨"o", 1, 2, "k"⟩ initWriter [("k", Value.str "a")])
        [("k", Value.str "a")]).buffers
      (compute_shard (Value.str "a") 1) = some [] ∧
    (add_record ⟨"o", 1, 2, "k"⟩
        (add_record ⟨"o", 1, 2, "k"⟩ initWriter [("k", Value.str "a")])
        [("k", Value.str "a")]).flushLog = [2] ∧
    dGet (add_record ⟨"o", 1, 2, "k"⟩
        (add_record ⟨"o", 1, 2, "k"⟩ initWriter [("k", Value.str "a")])
        [("k", Value.str "a")]).counts
      (compute_shard (Value.str "a") 1) = some 2 ∧
    dGet (add_record ⟨"o", 1, 2, "k"⟩ (add_record ⟨"o", 1, 2, "k"⟩
        (add_record ⟨"o", 1, 2, "k"⟩ initWriter [("k", Value.str "a")])
        [("k", Value.str "a")]) [("k", Value.str "a")]).buffers
      (compute_shard (Value.str "a") 1) = some [[("k", Value.str "a")]] ∧
    (closeWriter ⟨"o", 1, 2, "k"⟩ (add_record ⟨"o", 1, 2, "k"⟩ (add_record ⟨"o", 1, 2, "k"⟩
        (add_record ⟨"o", 1, 2, "k"⟩ initWriter [("k", Value.str "a")])
        [("k", Value.str "a")]) [("k", Value.str "a")])).1.total_rows = 3 ∧
    (closeWriter ⟨"o", 1, 2, "k"⟩ (add_record ⟨"o", 1, 2, "k"⟩ (add_record ⟨"o", 1, 2, "k"⟩
        (add_record ⟨"o", 1, 2, "k"⟩ initWriter [("k", Value.str "a")])
        [("k", Value.str "a")]) [("k", Value.str "a")])).2.flushLog = [2, 1] :=
  C1_amended ⟨"o", 1, 2, "k"⟩ (Value.str "a")
    [("k", Value.str "a")] [("k", Value.str "a")] [("k", Value.str "a")]
    rfl rfl rfl rfl

/-- C2 (counterexample): an execution of `Orchestrator.run` — an imports
target whose single worker exits 1 — terminates by raising, and
`writer.close()` is never called (`closeCount = 0`): `run` has no
try/finally around the target dispatch, so the claim that every execution
calls `Store.close()` before `run()` terminates is false. -/
theorem C2_counterexample :
    (orchestratorRun ⟨"out", 8, 100, "k"⟩ (fun _ => none) (fun _ => ⟨[], 1⟩)
      (.imports ["M"]) []).1 = .error (.workerExit 1 none) ∧
    (orchestratorRun ⟨"out", 8, 100, "k"⟩ (fun _ => none) (fun _ => ⟨[], 1⟩)
      (.imports ["M"]) []).2.closeCount = 0 :=
  ⟨rfl, rfl⟩

/-- C2 (amended): `Orchestrator.run` calls `writer.close()` exactly once
— and returns the `RunStats` that this `close()` produced — precisely
when it returns normally; when a worker failure (or aggregate multi-file
failure) makes the run fatal, `run` raises without ever calling
`close()`. -/
theorem C2_amended (cfg : WriterCfg) (parse : String → Option Record)
    (workers : Option String → WorkerBehavior) (target : JobTarget) (order : List String) :
    (∀ stats st, orchestratorRun cfg parse workers target order = (.ok stats, st) →
      st.closeCount = 1 ∧ st.closedStats = some stats) ∧
    (∀ e st, orchestratorRun cfg parse workers target order = (.error e, st) →
      st.closeCount = 0) :=
  orchestratorRun_close cfg parse workers target order

/-- C2 (witness): a successful imports run closes the writer once and
returns the statistics that `close()` produced. -/
theorem C2_amended_witness :
    (orchestratorRun ⟨"out", 8, 100, "k"⟩ (fun _ => none) (fun _ => ⟨[], 0⟩)
        (.imports ["M"]) []).2.closeCount = 1 ∧
    (orchestratorRun ⟨"out", 8, 100, "k"⟩ (fun _ => none) (fun _ => ⟨[], 0⟩)
        (.imports ["M"]) []).2.closedStats
      = some (closeWriter ⟨"out", 8, 100, "k"⟩
          (process_subprocess_output ⟨"out", 8, 100, "k"⟩ (fun _ => none) initWriter [])).1 :=
  (C2_amended ⟨"out", 8, 100, "k"⟩ (fun _ => none) (fun _ => ⟨[], 0⟩)
    (.imports ["M"]) []).1 _ _ rfl

/-- C3 (amended): in a multi-file run with at least one failing worker,
after all units finish exactly one aggregate error is raised whose list
enumerates every failing file (in completion order) with its underlying
error message; every record streamed by the units — in particular by the
successful files — is still in the Store when the error is raised; but
`cli.main`'s exception handler then removes the output directory
(`shutil.rmtree`), so the final on-disk output is empty. -/
theorem C3_amended (cfg : WriterCfg) (parse : String → Option Record)
    (workers : Option String → WorkerBehavior) (f1 f2 : String) (rest order : List String)
    (hperm : order.Perm (f1 :: f2 :: rest))
    (hfail : (order.filter (fun f => (workers (some f)).exitCode ≠ 0)) ≠ []) :
    (orchestratorRun cfg parse workers (.readFiles (f1 :: f2 :: rest)) order).1
      = .error (.aggregate
          ((order.filter (fun f => (workers (some f)).exitCode ≠ 0)).map
            (fun f => f ++ ": " ++ unitErrMsg (workers (some f)).exitCode f))) ∧
    (∀ f ∈ order, ∀ r ∈ stream_json_lines parse (workers (some f)).lines,
      r ∈ storeRecords
        (orchestratorRun cfg parse workers (.readFiles (f1 :: f2 :: rest)) order).2) ∧
    cliFinalOutput cfg parse workers (.readFiles (f1 :: f2 :: rest)) order = none := by
  obtain ⟨hinv, hcc, hadded, herrs⟩ := rmf_state_spec cfg parse workers order
  have hx : (run_multiple_files cfg parse workers order initWriter).2 ≠ [] := by
    rw [herrs]
    intro hc
    exact hfail (List.map_eq_nil_iff.mp hc)
  refine ⟨?_, ?_, ?_⟩
  · rw [orchestratorRun_multi, if_pos hx, herrs]
  · intro f hf r hr
    rw [orchestratorRun_multi, if_pos hx]
    obtain ⟨_, _, _, _, _, _, hmem⟩ := hinv
    apply hmem
    rw [hadded]
    exact List.mem_flatten.mpr
      ⟨stream_json_lines parse (workers (some f)).lines,
       List.mem_map.mpr ⟨f, hf, rfl⟩, hr⟩
  · unfold cliFinalOutput
    rw [orchestratorRun_multi, if_pos hx]

unseal blakeChunks dumps in
set_option maxRecDepth 100000 in
/-- C3 (counterexample): five parallel files, the worker for `f3` exits 1
while the other four succeed, each emitting one record.  Exactly one
aggregate error is raised naming exactly `f3`, and all five records were
added to the Store — but the CLI's exception handler deletes the output
directory, so the final output is `none`: the successful files' records
do **not** remain on disk in the final output, contrary to the claim. -/
theorem C3_counterexample :
    (orchestratorRun ⟨"out", 4, 100, "k"⟩
        (fun l => if l = "\x7b\x7d" then some [] else none)
        (fun of => if of = some "f3" then ⟨["\x7b\x7d"], 1⟩ else ⟨["\x7b\x7d"], 0⟩)
        (.readFiles ["f1", "f2", "f3", "f4", "f5"])
        ["f1", "f2", "f3", "f4", "f5"]).1
      = .error (.aggregate ["f3: Lean subprocess failed with exit code 1\nFile: f3"]) ∧
    (orchestratorRun ⟨"out", 4, 100, "k"⟩
        (fun l => if l = "\x7b\x7d" then some [] else none)
        (fun of => if of = some "f3" then ⟨["\x7b\x7d"], 1⟩ else ⟨["\x7b\x7d"], 0⟩)
        (.readFiles ["f1", "f2", "f3", "f4", "f5"])
        ["f1", "f2", "f3", "f4", "f5"]).2.added.length = 5 ∧
    cliFinalOutput ⟨"out", 4, 100, "k"⟩
        (fun l => if l = "\x7b\x7d" then some [] else none)
        (fun of => if of = some "f3" then ⟨["\x7b\x7d"], 1⟩ else ⟨["\x7b\x7d"], 0⟩)
        (.readFiles ["f1", "f2", "f3", "f4", "f5"])
        ["f1", "f2", "f3", "f4", "f5"] = none :=
  ⟨rfl, rfl, rfl⟩

/-- C3 (witness): the amended statement at the five-file scenario with
`f3` failing. -/
theorem C3_amended_witness :
    (orchestratorRun ⟨"out", 4, 100, "k"⟩
        (fun l => if l = "\x7b\x7d" then some [] else none)
        (fun of => if of = some "f3" then ⟨["\x7b\x7d"], 1⟩ else ⟨["\x7b\x7d"], 0⟩)
        (.readFiles ["f1", "f2", "f3", "f4", "f5"])
        ["f1", "f2", "f3", "f4", "f5"]).1
      = .error (.aggregate
          (((["f1", "f2", "f3", "f4", "f5"] : List String).filter
              (fun f => ((fun of => if of = some "f3" then
                  (⟨["\x7b\x7d"], 1⟩ : WorkerBehavior)
                else ⟨["\x7b\x7d"], 0⟩) (some f)).exitCode ≠ 0)).map
            (fun f => f ++ ": " ++ unitErrMsg ((fun of => if of = some "f3" then
                (⟨["\x7b\x7d"], 1⟩ : WorkerBehavior)
              else ⟨["\x7b\x7d"], 0⟩) (some f)).exitCode f))) ∧
    (∀ f ∈ (["f1", "f2", "f3", "f4", "f5"] : List String),
      ∀ r ∈ stream_json_lines (fun l => if l = "\x7b\x7d" then some [] else none)
          ((fun of => if of = some "f3" then (⟨["\x7b\x7d"], 1⟩ : WorkerBehavior)
            else ⟨["\x7b\x7d"], 0⟩) (some f)).lines,
      r ∈ storeRecords
        (orchestratorRun ⟨"out", 4, 100, "k"⟩
          (fun l => if l = "\x7b\x7d" then some [] else none)
          (fun of => if of = some "f3" then ⟨["\x7b\x7d"], 1⟩ else ⟨["\x7b\x7d"], 0⟩)
          (.readFiles ["f1", "f2", "f3", "f4", "f5"])
          ["f1", "f2", "f3", "f4", "f5"]).2) ∧
    cliFinalOutput ⟨"out", 4, 100, "k"⟩
        (fun l => if l = "\x7b\x7d" then some [] else none)
        (fun of => if of = some "f3" then ⟨["\x7b\x7d"], 1⟩ else ⟨["\x7b\x7d"], 0⟩)
        (.readFiles ["f1", "f2", "f3", "f4", "f5"])
        ["f1", "f2", "f3", "f4", "f5"] = none :=
  C3_amended ⟨"out", 4, 100, "k"⟩
    (fun l => if l = "\x7b\x7d" then some [] else none)
    (fun of => if of = some "f3" then ⟨["\x7b\x7d"], 1⟩ else ⟨["\x7b\x7d"], 0⟩)
    "f1" "f2" ["f3", "f4", "f5"] ["f1", "f2", "f3", "f4", "f5"]
    (List.Perm.refl _) (by decide)

/-- C4: `_compute_shard` is pure — determinism is definitional in the
model, two calls with the same `(v, n)` agree — its result lies in
`[0, n)` for every shard count `n ≥ 1`, and it is exactly: hash the
string itself for string keys and the canonical `json.dumps` text
otherwise, with blake2b at a fixed 8-byte digest, read big-endian,
reduced modulo `n`. -/
theorem C4_compute_shard (v : Value) (n : Nat) (h : 1 ≤ n) :
    compute_shard v n = compute_shard v n ∧
    compute_shard v n < n ∧
    (∀ s, shard_hash_text (Value.str s) = s) ∧
    (blake2b8 (encodeUtf8 (shard_hash_text v))).length = 8 ∧
    compute_shard v n = beNat (blake2b8 (encodeUtf8 (shard_hash_text v))) % n := by
  refine ⟨rfl, ?_, fun s => rfl, ?_, rfl⟩
  · exact Nat.mod_lt _ h
  · simp [blake2b8, leBytes]

/-- C4 (witness): the statement at `v = "a"`, `n = 3`. -/
theorem C4_compute_shard_witness :
    compute_shard (Value.str "a") 3 = compute_shard (Value.str "a") 3 ∧
    compute_shard (Value.str "a") 3 < 3 ∧
    (∀ s, shard_hash_text (Value.str s) = s) ∧
    (blake2b8 (encodeUtf8 (shard_hash_text (Value.str "a")))).length = 8 ∧
    compute_shard (Value.str "a") 3
      = beNat (blake2b8 (encodeUtf8 (shard_hash_text (Value.str "a")))) % 3 :=
  C4_compute_shard (Value.str "a") 3 (by decide)

/-- C5: two structurally-equal non-string key values — objects with the
same (field, value) entries inserted in different orders, fields unique —
serialize to the same canonical text (`sort_keys=True` sorts object keys
before serializing) and are therefore assigned the same shard for every
shard count. -/
theorem C5_canonical (l₁ l₂ : List (String × Value)) (hperm : l₁.Perm l₂)
    (hnd : (l₁.map Prod.fst).Nodup) (n : Nat) :
    dumps (Value.obj l₁) = dumps (Value.obj l₂) ∧
    compute_shard (Value.obj l₁) n = compute_shard (Value.obj l₂) n := by
  have hd := dumps_obj_eq_of_perm l₁ l₂ hperm hnd
  refine ⟨hd, ?_⟩
  show beNat (blake2b8 (encodeUtf8 (dumps (Value.obj l₁)))) % n
      = beNat (blake2b8 (encodeUtf8 (dumps (Value.obj l₂)))) % n
  rw [hd]

/-- C5 (witness): `{"b": 1, "a": null}` and `{"a": null, "b": 1}` land in
the same shard of 7. -/
theorem C5_canonical_witness :
    dumps (Value.obj [("b", Value.int 1), ("a", Value.null)])
      = dumps (Value.obj [("a", Value.null), ("b", Value.int 1)]) ∧
    compute_shard (Value.obj [("b", Value.int 1), ("a", Value.null)]) 7
      = compute_shard (Value.obj [("a", Value.null), ("b", Value.int 1)]) 7 :=
  C5_canonical [("b", Value.int 1), ("a", Value.null)]
    [("a", Value.null), ("b", Value.int 1)]
    (List.Perm.swap ("a", Value.null) ("b", Value.int 1) [])
    (by decide) 7

/-- C6: for every sequence of writer operations on a fresh writer,
followed by exactly one `close()`, the returned `total_rows` equals the
sum over all flushes of the rows written in that flush (`flushLog`),
which is also the sum of the per-shard row counters. -/
theorem C6_close_total (cfg : WriterCfg) (ops : List WOp) :
    (closeWriter cfg (ops.foldl (applyOp cfg) initWriter)).1.total_rows
      = (closeWriter cfg (ops.foldl (applyOp cfg) initWriter)).2.flushLog.sum ∧
    (closeWriter cfg (ops.foldl (applyOp cfg) initWriter)).1.total_rows
      = ((closeWriter cfg (ops.foldl (applyOp cfg) initWriter)).2.counts.map
          (fun p => p.2)).sum := by
  have hinv := execOps_inv cfg ops
  obtain ⟨_, h2, _, _⟩ := closeWriter_spec cfg _ hinv
  exact ⟨h2, rfl⟩

/-- C7: the line-streaming step is a total function of the line sequence:
it skips blank (whitespace-only) lines, yields exactly the successfully
parsed objects of the non-blank lines in input order, and a line that
fails to parse is simply absent from the output — it can never terminate
or fail the stream. -/
theorem C7_stream (parse : String → Option Record) (lines : List String) :
    stream_json_lines parse lines
      = ((lines.map pyStrip).filter (fun l => l ≠ "")).filterMap parse :=
  stream_json_lines_eq parse lines

/-- C8 (counterexample): `_process_file` reads `self._shutdown` and then
spawns in two separate steps with no lock, so `cleanup()` can set the
flag between them.  In the interleaving `check 0; setFlag; spawn 0`, the
unit has not yet spawned its worker at the moment the flag is set, yet it
spawns afterwards — refuting "from that point on, no new worker process
is ever started by a not-yet-started unit". -/
theorem C8_counterexample :
    (supExec ⟨false, [.notStarted]⟩ [.check 0, .setFlag]).shutdown = true ∧
    (supExec ⟨false, [.notStarted]⟩ [.check 0, .setFlag]).units.getD 0 .failed
      ≠ .spawned ∧
    (supExec ⟨false, [.notStarted]⟩ [.check 0, .setFlag, .spawn 0]).units.getD 0 .failed
      = .spawned := by
  decide

/-- C8 (amended): once `cleanup()` has set the shutdown flag, every unit
that has not yet **performed its pre-spawn shutdown check** refuses to
spawn: in every continuation of the execution its worker is never
spawned (the unit fails its check instead).  A unit that passed the check
before the flag was set may still spawn — the check and the spawn are not
atomic. -/
theorem C8_amended (st : SupervisorState) (u : Nat) (es : List SupEvent)
    (hflag : st.shutdown = true)
    (hu : st.units.getD u .failed = .notStarted) :
    (supExec st es).units.getD u .failed ≠ .spawned := by
  have h := supExec_blocked st u es ⟨hflag, Or.inl hu⟩
  rcases h.2 with h' | h' <;> rw [h'] <;> decide

/-- C8 (witness): with the flag already set, a unit that has not yet
checked never spawns, here under events `spawn; check; spawn`. -/
theorem C8_amended_witness :
    (supExec ⟨true, [.notStarted]⟩ [.spawn 0, .check 0, .spawn 0]).units.getD 0 .failed
      ≠ .spawned :=
  C8_amended ⟨true, [.notStarted]⟩ 0 [.spawn 0, .check 0, .spawn 0] rfl rfl

/-- C9: N threads each perform R `add_record` calls on the shared writer;
every writer operation runs under the single lock, so any concurrent
execution is equivalent to some interleaving `ops` of the thread-local
call sequences — a permutation of their concatenation.  For every such
interleaving (whatever the key values, in particular all-distinct ones),
`close()` reports `total_rows = N * R`: no row is lost or duplicated. -/
theorem C9_concurrent_total (cfg : WriterCfg) (N R : Nat) (threads : List (List Record))
    (hN : threads.length = N) (hR : ∀ t ∈ threads, t.length = R)
    (ops : List Record) (hperm : ops.Perm threads.flatten) :
    (closeWriter cfg (ops.foldl (add_record cfg) initWriter)).1.total_rows = N * R := by
  obtain ⟨hinv, hadded, _, _⟩ := foldl_add_spec cfg ops initWriter writerInv_init
  obtain ⟨h1, _, _, _⟩ := closeWriter_spec cfg _ hinv
  rw [h1, hadded]
  have hrep : threads.map List.length = List.replicate N R := by
    refine List.eq_replicate_iff.mpr ⟨by simp [hN], ?_⟩
    intro b hb
    rcases List.mem_map.mp hb with ⟨t, ht, hbt⟩
    rw [← hbt]
    exact hR t ht
  have : (initWriter.added ++ ops).length = ops.length := by simp [initWriter]
  rw [this, hperm.length_eq, List.length_flatten, hrep]
  simp [List.sum_replicate, smul_eq_mul]

set_option maxRecDepth 10000 in
/-- C9 (witness): two threads of one record each, interleaved in reverse
order, yield `total_rows = 2 * 1`. -/
theorem C9_concurrent_total_witness :
    (closeWriter ⟨"o", 1, 2, "k"⟩
      ((([[("k", Value.str "a")], [("k", Value.str "b")]] : List Record)).foldl
        (add_record ⟨"o", 1, 2, "k"⟩) initWriter)).1.total_rows = 2 * 1 :=
  C9_concurrent_total ⟨"o", 1, 2, "k"⟩ 2 1
    [[[("k", Value.str "b")]], [[("k", Value.str "a")]]] rfl
    (by
      intro t ht
      rcases List.mem_cons.mp ht with h | h
      · subst h; rfl
      · rcases List.mem_cons.mp h with h2 | h2
        · subst h2; rfl
        · exact absurd h2 (List.not_mem_nil t))
    [[("k", Value.str "a")], [("k", Value.str "b")]]
    (List.Perm.swap [("k", Value.str "b")] [("k", Value.str "a")] [])

/-- C10: a record whose shard-key field is missing or null is not dropped
and raises no error: the key value is taken as null, which serializes to
the canonical text `"null"` and is hashed like any other non-string
value, so all such records are routed to the one fixed shard
`compute_shard null`, and each is counted in `total_rows`. -/
theorem C10_null_key (cfg : WriterCfg) (prior : List Record) (r : Record)
    (hkey : recGet r cfg.shard_key = none ∨ recGet r cfg.shard_key = some Value.null) :
    (recGet r cfg.shard_key).getD Value.null = Value.null ∧
    dumps Value.null = "null" ∧
    compute_shard ((recGet r cfg.shard_key).getD Value.null) cfg.num_shards
      = compute_shard Value.null cfg.num_shards ∧
    compute_shard Value.null cfg.num_shards
      = beNat (blake2b8 (encodeUtf8 "null")) % cfg.num_shards ∧
    r ∈ storeRecords (add_record cfg (prior.foldl (add_record cfg) initWriter) r) ∧
    (closeWriter cfg ((prior ++ [r]).foldl (add_record cfg) initWriter)).1.total_rows
      = prior.length + 1 := by
  have hnullkey : (recGet r cfg.shard_key).getD Value.null = Value.null := by
    rcases hkey with h | h <;> rw [h] <;> rfl
  have hdnull : dumps Value.null = "null" := by simp [dumps]
  refine ⟨hnullkey, hdnull, by rw [hnullkey], ?_, ?_, ?_⟩
  · show beNat (blake2b8 (encodeUtf8 (shard_hash_text Value.null))) % cfg.num_shards
      = beNat (blake2b8 (encodeUtf8 "null")) % cfg.num_shards
    rw [show shard_hash_text Value.null = dumps Value.null from rfl, hdnull]
  · obtain ⟨hinv, _, _, _⟩ := foldl_add_spec cfg prior initWriter writerInv_init
    obtain ⟨hinv', hadded', _, _⟩ :=
      add_record_spec cfg (prior.foldl (add_record cfg) initWriter) r hinv
    obtain ⟨_, _, _, _, _, _, hmem⟩ := hinv'
    apply hmem
    rw [hadded']
    exact List.mem_append_right _ (List.mem_singleton.mpr rfl)
  · obtain ⟨hinv, hadded, _, _⟩ := foldl_add_spec cfg (prior ++ [r]) initWriter writerInv_init
    obtain ⟨h1, _, _, _⟩ := closeWriter_spec cfg _ hinv
    rw [h1, hadded]
    simp [initWriter]

set_option maxRecDepth 10000 in
/-- C10 (witness): the empty record (shard key absent) under two shards. -/
theorem C10_null_key_witness :
    (recGet [] "k").getD Value.null = Value.null ∧
    dumps Value.null = "null" ∧
    compute_shard ((recGet [] "k").getD Value.null) 2 = compute_shard Value.null 2 ∧
    compute_shard Value.null 2 = beNat (blake2b8 (encodeUtf8 "null")) % 2 ∧
    ([] : Record) ∈ storeRecords
      (add_record ⟨"o", 2, 5, "k"⟩ (([] : List Record).foldl (add_record ⟨"o", 2, 5, "k"⟩)
        initWriter) []) ∧
    (closeWriter ⟨"o", 2, 5, "k"⟩ ((([] : List Record) ++ [[]]).foldl
      (add_record ⟨"o", 2, 5, "k"⟩) initWriter)).1.total_rows
      = ([] : List Record).length + 1 :=
  C10_null_key ⟨"o", 2, 5, "k"⟩ [] [] (Or.inl rfl)
